import Mathlib

/-!
# Verification of the b70 (BIP70 payment protocol) codec and trust layer

A shallow embedding of the repository's protobuf reader/writer, the four
message types (PaymentDetails, Payment, PaymentRequest, PaymentACK) and the
signing/verification helpers, together with theorems settling the frozen
claims about them.

Conventions of the embedding:
* A JS `Buffer` is a `List Nat` whose entries are byte values (`< 256`).
* A JS string is identified with its UTF-8 byte list (the codec treats
  strings opaquely: `writeFieldString` UTF-8-encodes, `readFieldString`
  UTF-8-decodes, so on the wire a string is exactly its byte list).
* JS numbers that can hold the `-1` absence sentinel are `Int`; plain
  unsigned wire values are `Nat`.
* Fallible JS code (assertions, out-of-bounds reads) is `Except String`.
* External collaborators (the x509 engine, `JSON.parse`) are parameters.
-/

/-- A byte buffer: a JS `Buffer` as a list of byte values. -/
abbrev B8 := List Nat

/-- The state of a `ProtoReader`: the immutable data plus the cursor. -/
structure RState where
  data : B8
  offset : Nat
deriving Repr, DecidableEq

/-- `RS pre rest` is the reader state whose data is `pre ++ rest` with the
cursor sitting at the start of `rest`.  All decode lemmas are phrased in
this form so that consuming `enc` turns `RS pre (enc ++ rest)` into
`RS (pre ++ enc) rest`. -/
def RS (pre rest : B8) : RState := ⟨pre ++ rest, pre.length⟩

/-- The `while (ch & 0x80)` loop of `_readVarint` (protoreader.js).
`num`/`size` are the accumulators; the loop is entered with the byte just
read in `ch`, here re-read via `data.getD off 0`.  Returns `(size, value)`.
The JS loop: on running past the end it zeroes `num` and breaks; after each
byte it asserts `size < 7` (throwing `Number exceeds 2^53-1.`), even when
that byte would have terminated the varint.  Buffer entries are `< 256`, so
`ch & 0x7f` is `ch % 128` and `ch & 0x80` is `128 ≤ ch`. -/
def varintLoop (data : B8) (off num size : Nat) : Except String (Nat × Nat) :=
  if data.length ≤ off then
    .ok (size, 0)
  else
    let ch := data.getD off 0
    let num1 := num + ch % 128 * 2 ^ (7 * size)
    if size + 1 < 7 then
      if ch < 128 then .ok (size + 1, num1)
      else varintLoop data (off + 1) num1 (size + 1)
    else
      .error "Number exceeds 2^53-1."
termination_by 7 - size
decreasing_by omega

/-- `_readVarint(data, off)` from protoreader.js: `(size, value)`. -/
def _readVarint (data : B8) (off : Nat) : Except String (Nat × Nat) :=
  varintLoop data off 0 0

/-- `ProtoReader.readVarint()`: reads at the cursor and advances by `size`. -/
def readVarintR (st : RState) : Except String (Nat × RState) :=
  match _readVarint st.data st.offset with
  | .error e => .error e
  | .ok (size, value) => .ok (value, ⟨st.data, st.offset + size⟩)

/-- Modelled from the spec: `bufio` `BufferReader.readBytes` (the bufio
reader that `ProtoReader` extends is not under src/) — returns `n` raw
bytes at the cursor, failing on an out-of-bounds read. -/
def readBytesR (n : Nat) (st : RState) : Except String (B8 × RState) :=
  if st.offset + n ≤ st.data.length then
    .ok ((st.data.drop st.offset).take n, ⟨st.data, st.offset + n⟩)
  else .error "Out of bounds read."

/-- Modelled from the spec: `BufferReader.readVarBytes` — a varint length
followed by that many raw bytes (the length comes from the overridden
protobuf `readVarint`, §4.1 of the spec: "Delimited → varint length then
that many raw bytes"). -/
def readVarBytesR (st : RState) : Except String (B8 × RState) :=
  match readVarintR st with
  | .error e => .error e
  | .ok (n, st1) => readBytesR n st1

/-- Little-endian byte-list value. -/
def leVal (bs : B8) : Nat := bs.foldr (fun b acc => b + 256 * acc) 0

/-- Modelled from the spec: `BufferReader.readU32` — 4 little-endian bytes. -/
def readU32R (st : RState) : Except String (Nat × RState) :=
  match readBytesR 4 st with
  | .error e => .error e
  | .ok (bs, st1) => .ok (leVal bs, st1)

/-- Modelled from the spec: `BufferReader.readU64` — 8 little-endian bytes,
restricted to the JS safe-integer range. -/
def readU64R (st : RState) : Except String (Nat × RState) :=
  match readBytesR 8 st with
  | .error e => .error e
  | .ok (bs, st1) =>
    if leVal bs < 2 ^ 53 then .ok (leVal bs, st1)
    else .error "Number exceeds 2^53-1."

/-- A decoded wire field (the `Field` helper class of protoreader.js).
The JS object also carries a `group` slot; it is omitted here because the
group-parsing arm can never return normally (see `readPayloadF`). -/
structure PField where
  tag : Nat
  type : Nat
  size : Nat
  value : Nat
  fdata : Option B8
deriving Repr, DecidableEq

/-- The `switch (field.type)` payload dispatch of `ProtoReader.readField`.
`off0` is the saved pre-read offset (for `field.size`), `st1` the state
after the header varint.

The `START_GROUP` (3) arm of the source loops `readField()` until an inner
field has type `END_GROUP`; but the inner `readField` itself throws
`Unexpected end group.` on an `END_GROUP` header before returning, so the
loop's break is dead code: that arm always throws (or, on some truncated
inputs, never terminates).  It is embedded as the error it raises. -/
def readPayloadF (ftag ftype off0 : Nat) (st1 : RState) :
    Except String (Option PField × RState) :=
  if ftype = 0 then
    match readVarintR st1 with
    | .error e => .error e
    | .ok (v, st2) => .ok (some ⟨ftag, ftype, st2.offset - off0, v, none⟩, st2)
  else if ftype = 1 then
    match readU64R st1 with
    | .error e => .error e
    | .ok (v, st2) => .ok (some ⟨ftag, ftype, st2.offset - off0, v, none⟩, st2)
  else if ftype = 2 then
    match readVarBytesR st1 with
    | .error e => .error e
    | .ok (bs, st2) => .ok (some ⟨ftag, ftype, st2.offset - off0, 0, some bs⟩, st2)
  else if ftype = 3 then
    .error "Unexpected end group."
  else if ftype = 4 then
    .error "Unexpected end group."
  else if ftype = 5 then
    match readU32R st1 with
    | .error e => .error e
    | .ok (v, st2) => .ok (some ⟨ftag, ftype, st2.offset - off0, v, none⟩, st2)
  else
    .error "Bad wire type."

/-- `ProtoReader.readField(tag, opt)`: read the header varint
(`tag = header >>> 3`, `type = header & 7`; `>>>` coerces to 32 bits); on an
expected-tag mismatch restore the cursor and return absent (if `opt`) or
fail; otherwise read the payload. -/
def readFieldF (tagExp : Option Nat) (opt : Bool) (st : RState) :
    Except String (Option PField × RState) :=
  match readVarintR st with
  | .error e => .error e
  | .ok (header, st1) =>
    let ftag := header % 2 ^ 32 / 8
    let ftype := header % 8
    match tagExp with
    | some t =>
      if ftag = t then readPayloadF ftag ftype st.offset st1
      else if opt then .ok (none, ⟨st1.data, st.offset⟩)
      else .error "Non-optional field not present."
    | none => readPayloadF ftag ftype st.offset st1

/-- `ProtoReader.readFieldU64`: absent optional field is the `-1` sentinel;
the wire type must be VARINT or FIXED64. -/
def readFieldU64F (tagExp : Option Nat) (opt : Bool) (st : RState) :
    Except String (Int × RState) :=
  match readFieldF tagExp opt st with
  | .error e => .error e
  | .ok (none, st1) => .ok (-1, st1)
  | .ok (some f, st1) =>
    if f.type = 0 ∨ f.type = 1 then .ok ((f.value : Int), st1)
    else .error "Assertion failed."

/-- `ProtoReader.readFieldU32`: as `readFieldU64` but VARINT or FIXED32. -/
def readFieldU32F (tagExp : Option Nat) (opt : Bool) (st : RState) :
    Except String (Int × RState) :=
  match readFieldF tagExp opt st with
  | .error e => .error e
  | .ok (none, st1) => .ok (-1, st1)
  | .ok (some f, st1) =>
    if f.type = 0 ∨ f.type = 5 then .ok ((f.value : Int), st1)
    else .error "Assertion failed."

/-- `ProtoReader.readFieldBytes`: absent optional field is `null`; asserts
the field carries byte data. -/
def readFieldBytesF (tagExp : Option Nat) (opt : Bool) (st : RState) :
    Except String (Option B8 × RState) :=
  match readFieldF tagExp opt st with
  | .error e => .error e
  | .ok (none, st1) => .ok (none, st1)
  | .ok (some f, st1) =>
    match f.fdata with
    | some bs => .ok (some bs, st1)
    | none => .error "Assertion failed."

/-- `ProtoReader.readFieldString`: the byte payload UTF-8-decoded; under the
bytes-as-strings convention it coincides with `readFieldBytes`. -/
def readFieldStringF (tagExp : Option Nat) (opt : Bool) (st : RState) :
    Except String (Option B8 × RState) :=
  readFieldBytesF tagExp opt st

/-- `ProtoReader.nextTag()`: `-1` when no bytes are left, else the tag of
the next field, which is read in full and then unread (`seek(-size)`), so
the cursor is unchanged on success. -/
def nextTagF (st : RState) : Except String Int :=
  if st.data.length - st.offset = 0 then .ok (-1)
  else
    match readFieldF none false st with
    | .error e => .error e
    | .ok (some f, _) => .ok (f.tag : Int)
    | .ok (none, _) => .error "Assertion failed."

/-! ## Writer (protowriter.js is not under src/; modelled from the spec) -/

/-- Modelled from the spec: `ProtoWriter.writeVarint` — "a base-128,
little-endian-group, continuation-bit-terminated integer". -/
def writeVarint (n : Nat) : B8 :=
  if n < 128 then [n] else (n % 128 + 128) :: writeVarint (n / 128)
termination_by n
decreasing_by exact Nat.div_lt_self (by omega) (by omega)

/-- Modelled from the spec: a field header — the varint of
`tag << 3 | wireType`. -/
def writeHeader (tag ty : Nat) : B8 := writeVarint (tag * 8 + ty)

/-- Modelled from the spec: `ProtoWriter.writeFieldU64` — "header with
Varint wire-type + writeVarint". -/
def writeFieldU64 (tag v : Nat) : B8 := writeHeader tag 0 ++ writeVarint v

/-- Modelled from the spec: `ProtoWriter.writeFieldU32` — same wire shape
as `writeFieldU64`. -/
def writeFieldU32 (tag v : Nat) : B8 := writeFieldU64 tag v

/-- Modelled from the spec: `ProtoWriter.writeFieldBytes` — "header +
varint length + raw bytes". -/
def writeFieldBytes (tag : Nat) (bs : B8) : B8 :=
  writeHeader tag 2 ++ (writeVarint bs.length ++ bs)

/-- Modelled from the spec: `ProtoWriter.writeFieldString` — "UTF-8 encode
then writeFieldBytes"; with strings as byte lists this is
`writeFieldBytes`. -/
def writeFieldString (tag : Nat) (s : B8) : B8 := writeFieldBytes tag s

/-! ## Encoding combinators mirroring the per-field write pattern -/

/-- The `if (x != null) bw.writeFieldString(tag, x)` pattern of the
serializers (an absent string writes nothing; an empty string is written). -/
def optStrW (tag : Nat) (o : Option B8) : B8 :=
  match o with
  | some s => writeFieldString tag s
  | none => []

/-- The `if (x) bw.writeFieldBytes(tag, x)` pattern (a `null` buffer writes
nothing; any buffer, even empty, is truthy and is written). -/
def optBytesW (tag : Nat) (o : Option B8) : B8 :=
  match o with
  | some b => writeFieldBytes tag b
  | none => []

/-- The `if (x !== -1) bw.writeFieldU64(tag, x)` sentinel pattern. -/
def optU64W (tag : Nat) (v : Int) : B8 :=
  if v ≠ -1 then writeFieldU64 tag v.toNat else []

/-- The `if (x !== -1) bw.writeFieldU32(tag, x)` sentinel pattern. -/
def optU32W (tag : Nat) (v : Int) : B8 :=
  if v ≠ -1 then writeFieldU32 tag v.toNat else []

/-! ## Message data model -/

/-- A monetary output `{ value, script }` (an embedded sub-message).
`value` is `Int` because a decoded absent value is the `-1` sentinel, and
`script` is `Option` because a decoded absent script is `null`. -/
structure POutput where
  value : Int
  script : Option B8
deriving Repr, DecidableEq

/-- BIP70 PaymentDetails (paymentdetails.js). -/
structure PaymentDetails where
  network : Option B8
  outputs : List POutput
  time : Int
  expires : Int
  memo : Option B8
  paymentUrl : Option B8
  merchantData : Option B8
deriving Repr, DecidableEq

/-- BIP70 PaymentRequest (paymentrequest.js). -/
structure PaymentRequest where
  version : Int
  pkiType : Option B8
  pkiData : Option B8
  paymentDetails : PaymentDetails
  signature : Option B8
deriving Repr, DecidableEq

/-- BIP70 Payment (payment.js). -/
structure Payment where
  merchantData : Option B8
  transactions : List B8
  refundTo : List POutput
  memo : Option B8
deriving Repr, DecidableEq

/-- BIP70 PaymentACK (paymentack.js). -/
structure PaymentACK where
  payment : Payment
  memo : Option B8
deriving Repr, DecidableEq

/-- The `Algorithm` helper class of paymentrequest.js. -/
structure Algorithm where
  key : B8
  hash : B8
deriving Repr, DecidableEq

/-- The encoding of one output under a parent tag: `op.writeFieldU64(1,
value); op.writeFieldBytes(2, script)` rendered and embedded. -/
def encOutTagged (tag : Nat) (o : POutput) : B8 :=
  writeFieldBytes tag (writeFieldU64 1 o.value.toNat ++ writeFieldBytes 2 (o.script.getD []))

/-- A repeated embedded-output section. -/
def encOutsTagged (tag : Nat) (outs : List POutput) : B8 :=
  (outs.map (encOutTagged tag)).flatten

/-- The repeated-output section of `PaymentDetails.toRaw` (tag 2). -/
def encOutputs (outs : List POutput) : B8 := encOutsTagged 2 outs

/-- `PaymentDetails.toRaw()`: fields 1..7 in canonical order; `time` is
always written, `expires` only when not the `-1` sentinel; `merchantData`
is written with the string writer (which at the byte level coincides with
the bytes writer). -/
def PaymentDetails.toRaw (pd : PaymentDetails) : B8 :=
  optStrW 1 pd.network ++
  (encOutputs pd.outputs ++
  (writeFieldU64 3 pd.time.toNat ++
  (optU64W 4 pd.expires ++
  (optStrW 5 pd.memo ++
  (optStrW 6 pd.paymentUrl ++
  optStrW 7 pd.merchantData)))))

/-- `PaymentRequest.toRaw()`: fields 1..5; `version` only when not `-1`,
`paymentDetails` always. -/
def PaymentRequest.toRaw (pr : PaymentRequest) : B8 :=
  optU32W 1 pr.version ++
  (optStrW 2 pr.pkiType ++
  (optBytesW 3 pr.pkiData ++
  (writeFieldBytes 4 pr.paymentDetails.toRaw ++
  optBytesW 5 pr.signature)))

/-- The repeated transaction section of `Payment.toRaw`. -/
def encTxs (txs : List B8) : B8 := (txs.map (fun tx => writeFieldBytes 2 tx)).flatten

/-- The repeated refund section of `Payment.toRaw` (same embedded shape as
the outputs, under tag 3). -/
def encRefunds (outs : List POutput) : B8 := encOutsTagged 3 outs

/-- `Payment.toRaw()`: fields 1..4. -/
def Payment.toRaw (p : Payment) : B8 :=
  optBytesW 1 p.merchantData ++
  (encTxs p.transactions ++
  (encRefunds p.refundTo ++
  optStrW 4 p.memo))

/-- `PaymentACK.toRaw()`: the embedded payment then the optional memo. -/
def PaymentACK.toRaw (a : PaymentACK) : B8 :=
  writeFieldBytes 1 a.payment.toRaw ++ optStrW 2 a.memo

/-! ## Decoders -/

/-- The `while (br.nextTag() === 2)` output loop of
`PaymentDetails.fromRaw`: each iteration reads one embedded output message
(`value = op.readFieldU64(1, true)`, `script = op.readFieldBytes(2, true)`).
The fuel bounds the iteration count (each iteration consumes at least one
byte of a finite buffer, so any terminating run fits in `data.length + 1`
steps). -/
def readOutputsLoop (tag : Nat) : Nat → RState → List POutput →
    Except String (List POutput × RState)
  | 0, _, _ => .error "nontermination"
  | fl + 1, st, acc =>
    match nextTagF st with
    | .error e => .error e
    | .ok t =>
      if t = (tag : Int) then
        match readFieldBytesF (some tag) false st with
        | .error e => .error e
        | .ok (none, _) => .error "Assertion failed."
        | .ok (some bs, st1) =>
          match readFieldU64F (some 1) true ⟨bs, 0⟩ with
          | .error e => .error e
          | .ok (v, op1) =>
            match readFieldBytesF (some 2) true op1 with
            | .error e => .error e
            | .ok (sc, _) => readOutputsLoop tag fl st1 (acc ++ [⟨v, sc⟩])
      else .ok (acc, st)

/-- `PaymentDetails.fromRaw(data)`: fields 1..7 in order, with the output
loop between `network` and `time`; `time` is non-optional. -/
def PaymentDetails.fromRaw (data : B8) : Except String PaymentDetails :=
  match readFieldStringF (some 1) true ⟨data, 0⟩ with
  | .error e => .error e
  | .ok (network, st) =>
    match readOutputsLoop 2 (data.length + 1) st [] with
    | .error e => .error e
    | .ok (outputs, st) =>
      match readFieldU64F (some 3) false st with
      | .error e => .error e
      | .ok (time, st) =>
        match readFieldU64F (some 4) true st with
        | .error e => .error e
        | .ok (expires, st) =>
          match readFieldStringF (some 5) true st with
          | .error e => .error e
          | .ok (memo, st) =>
            match readFieldStringF (some 6) true st with
            | .error e => .error e
            | .ok (paymentUrl, st) =>
              match readFieldBytesF (some 7) true st with
              | .error e => .error e
              | .ok (merchantData, _) =>
                .ok ⟨network, outputs, time, expires, memo, paymentUrl, merchantData⟩

/-- `PaymentRequest.fromRaw(data)`: fields 1..5; `paymentDetails` (tag 4)
is non-optional and parsed recursively. -/
def PaymentRequest.fromRaw (data : B8) : Except String PaymentRequest :=
  match readFieldU32F (some 1) true ⟨data, 0⟩ with
  | .error e => .error e
  | .ok (version, st) =>
    match readFieldStringF (some 2) true st with
    | .error e => .error e
    | .ok (pkiType, st) =>
      match readFieldBytesF (some 3) true st with
      | .error e => .error e
      | .ok (pkiData, st) =>
        match readFieldBytesF (some 4) false st with
        | .error e => .error e
        | .ok (none, _) => .error "Assertion failed."
        | .ok (some pdRaw, st) =>
          match PaymentDetails.fromRaw pdRaw with
          | .error e => .error e
          | .ok pd =>
            match readFieldBytesF (some 5) true st with
            | .error e => .error e
            | .ok (signature, _) =>
              .ok ⟨version, pkiType, pkiData, pd, signature⟩

/-- The `while (br.nextTag() === 2)` transaction loop of
`Payment.fromRaw`. -/
def readTxLoop : Nat → RState → List B8 → Except String (List B8 × RState)
  | 0, _, _ => .error "nontermination"
  | fl + 1, st, acc =>
    match nextTagF st with
    | .error e => .error e
    | .ok t =>
      if t = (2 : Int) then
        match readFieldBytesF (some 2) false st with
        | .error e => .error e
        | .ok (none, _) => .error "Assertion failed."
        | .ok (some tx, st1) => readTxLoop fl st1 (acc ++ [tx])
      else .ok (acc, st)

/-- `Payment.fromRaw(data)`: merchant data, the transaction loop, the
refund loop (tag 3, same embedded shape as outputs), then the memo. -/
def Payment.fromRaw (data : B8) : Except String Payment :=
  match readFieldBytesF (some 1) true ⟨data, 0⟩ with
  | .error e => .error e
  | .ok (merchantData, st) =>
    match readTxLoop (data.length + 1) st [] with
    | .error e => .error e
    | .ok (transactions, st) =>
      match readOutputsLoop 3 (data.length + 1) st [] with
      | .error e => .error e
      | .ok (refundTo, st) =>
        match readFieldStringF (some 4) true st with
        | .error e => .error e
        | .ok (memo, _) =>
          .ok ⟨merchantData, transactions, refundTo, memo⟩

/-- `PaymentACK.fromRaw(data)`: the embedded payment (tag 1, non-optional)
then the optional memo. -/
def PaymentACK.fromRaw (data : B8) : Except String PaymentACK :=
  match readFieldBytesF (some 1) false ⟨data, 0⟩ with
  | .error e => .error e
  | .ok (none, _) => .error "Assertion failed."
  | .ok (some pRaw, st) =>
    match Payment.fromRaw pRaw with
    | .error e => .error e
    | .ok p =>
      match readFieldStringF (some 2) true st with
      | .error e => .error e
      | .ok (memo, _) => .ok ⟨p, memo⟩

/-! ## PaymentRequest operations -/

/-- JS string truthiness (`!this.pkiType`): `null` and the empty string are
falsy, any other string truthy. -/
def strTruthy (o : Option B8) : Bool :=
  match o with
  | none => false
  | some s => !s.isEmpty

/-- The string "none" as bytes. -/
def noneStr : B8 := [110, 111, 110, 101]
/-- The string "x509" as bytes. -/
def x509Str : B8 := [120, 53, 48, 57]
/-- The string "sha1" as bytes. -/
def sha1Str : B8 := [115, 104, 97, 49]
/-- The string "sha256" as bytes. -/
def sha256Str : B8 := [115, 104, 97, 50, 53, 54]
/-- The string "x509+sha1" as bytes. -/
def x509sha1 : B8 := [120, 53, 48, 57, 43, 115, 104, 97, 49]
/-- The string "x509+sha256" as bytes. -/
def x509sha256 : B8 := [120, 53, 48, 57, 43, 115, 104, 97, 50, 53, 54]

/-- `String.split('+')` on UTF-8 bytes: split at every 43 (`'+'`), keeping
empty segments, exactly as the JS split does ('+' cannot occur inside a
multi-byte UTF-8 sequence, so byte-level splitting agrees with the string
split). -/
def splitPlus : B8 → List B8
  | [] => [[]]
  | c :: cs =>
    if c = 43 then [] :: splitPlus cs
    else
      match splitPlus cs with
      | [] => [[c]]
      | s :: rest => (c :: s) :: rest

/-- `PaymentRequest.getAlgorithm()`: requires a truthy `pkiType`, splits it
on `'+'` into exactly two parts, requires `x509` and `sha1`/`sha256`.  The
two-element match mirrors the `parts.length !== 2` check plus the
`parts[0]`/`parts[1]` accesses of the source. -/
def PaymentRequest.getAlgorithm (pr : PaymentRequest) : Except String Algorithm :=
  if !strTruthy pr.pkiType then .error "No PKI type available."
  else
    match splitPlus (pr.pkiType.getD []) with
    | [p0, p1] =>
      if p0 ≠ x509Str then .error "Unknown PKI type."
      else if p1 ≠ sha1Str ∧ p1 ≠ sha256Str then .error "Unknown hash algorithm."
      else .ok ⟨p0, p1⟩
    | _ => .error "Could not parse PKI algorithm."

/-- `PaymentRequest.signatureData()`: stash the signature, set it to
`Buffer.alloc(0)` (a present-but-empty buffer), serialize, restore the
stash.  Returns the bytes together with the object as it is left after the
call (the source mutates `this`; the pair makes the mutation explicit). -/
def PaymentRequest.signatureData (pr : PaymentRequest) : B8 × PaymentRequest :=
  let signature := pr.signature
  let pr1 : PaymentRequest := { pr with signature := some [] }
  let data := pr1.toRaw
  let pr2 : PaymentRequest := { pr1 with signature := signature }
  (data, pr2)

/-- `PaymentRequest.setChain(chain)`: re-encode `pkiData` as repeated tag-1
length-delimited certificates (`assert(Buffer.isBuffer(cert))` is
vacuously true in the embedding). -/
def PaymentRequest.setChain (pr : PaymentRequest) (chain : List B8) : PaymentRequest :=
  { pr with pkiData := some ((chain.map (fun c => writeFieldBytes 1 c)).flatten) }

/-- The `while (br.nextTag() === 1)` loop of `PaymentRequest.getChain`. -/
def chainLoop : Nat → RState → List B8 → Except String (List B8)
  | 0, _, _ => .error "nontermination"
  | fl + 1, st, acc =>
    match nextTagF st with
    | .error e => .error e
    | .ok t =>
      if t = (1 : Int) then
        match readFieldBytesF (some 1) false st with
        | .error e => .error e
        | .ok (none, _) => .error "Assertion failed."
        | .ok (some c, st1) => chainLoop fl st1 (acc ++ [c])
      else .ok acc

/-- `PaymentRequest.getChain()`: empty when `pkiData` is `null` (an empty
buffer is truthy and decodes to the empty chain anyway), else the repeated
tag-1 list. -/
def PaymentRequest.getChain (pr : PaymentRequest) : Except String (List B8) :=
  match pr.pkiData with
  | none => .ok []
  | some pd => chainLoop (pd.length + 1) ⟨pd, 0⟩ []

/-- The external x509 collaborator (x509.js is out of scope per the spec):
`verifySubject(hashAlg, msg, sig, chain)` and `verifyChain(chain)`, each of
which may throw.  The signature argument is the possibly-`null` buffer the
caller passes. -/
structure X509 where
  verifySubject : B8 → B8 → Option B8 → List B8 → Except String Bool
  verifyChain : List B8 → Except String Bool

/-- `PaymentRequest.verify()`: false on falsy/"none" `pkiType`, false on a
`null` signature, false when algorithm resolution throws; then
`signatureData()` / `this.signature` / `this.getChain()` are computed with
no try block around them, and only the final `x509.verifySubject` call has
its errors swallowed to `false`. -/
def PaymentRequest.verify (x : X509) (pr : PaymentRequest) : Except String Bool :=
  if !strTruthy pr.pkiType ∨ pr.pkiType = some noneStr then .ok false
  else if pr.signature.isNone then .ok false
  else
    match pr.getAlgorithm with
    | .error _ => .ok false
    | .ok alg =>
      let msgPr := pr.signatureData
      let sig := msgPr.2.signature
      match msgPr.2.getChain with
      | .error e => .error e
      | .ok chain =>
        match x.verifySubject alg.hash msgPr.1 sig chain with
        | .ok b => .ok b
        | .error _ => .ok false

/-- `PaymentRequest.verifyChain()`: false on falsy/"none" `pkiType`;
`x509.verifyChain(this.getChain())` with the whole call (chain decode
included) inside the try block. -/
def PaymentRequest.verifyChain (x : X509) (pr : PaymentRequest) : Except String Bool :=
  if !strTruthy pr.pkiType ∨ pr.pkiType = some noneStr then .ok false
  else
    match (match pr.getChain with
           | .error e => .error e
           | .ok chain => x.verifyChain chain : Except String Bool) with
    | .ok b => .ok b
    | .error _ => .ok false

/-- An x509 oracle that accepts everything; used to instantiate theorems at
concrete inputs. -/
def okX509 : X509 := ⟨fun _ _ _ _ => .ok true, fun _ => .ok true⟩

/-! ## PaymentDetails operations -/

/-- `PaymentDetails.isExpired()`: false at the `-1` sentinel, else compares
the clock (`Math.floor(Date.now() / 1000)`, passed here as `now`) against
`expires`. -/
def PaymentDetails.isExpired (pd : PaymentDetails) (now : Nat) : Bool :=
  if pd.expires = -1 then false
  else decide (pd.expires < (now : Int))

/-- The `enc === 'json'` branch of `getData` (paymentdetails.js), shared by
`Payment` through prototype borrowing: `null` data gives `null`; otherwise
the bytes are UTF-8-decoded and handed to `JSON.parse` (the external
runtime parser, a parameter here), whose errors are swallowed to `null`. -/
def jsonDataOf {α : Type} (parse : B8 → Except String α) (md : Option B8) : Option α :=
  match md with
  | none => none
  | some bs =>
    match parse bs with
    | .ok v => some v
    | .error _ => none

/-- `PaymentDetails.getData('json')`. -/
def PaymentDetails.getDataJson {α : Type} (parse : B8 → Except String α)
    (pd : PaymentDetails) : Option α :=
  jsonDataOf parse pd.merchantData

/-- `Payment.getData('json')` (the borrowed method reads the same
`merchantData` slot on the Payment instance). -/
def Payment.getDataJson {α : Type} (parse : B8 → Except String α)
    (p : Payment) : Option α :=
  jsonDataOf parse p.merchantData

/-! ## Validity (the domain of the round-trip claims)

`fromOptions` accepts any safe-integer numerics and any Buffers; a byte
field in a real JS Buffer is always shorter than `2 ^ 32` (the runtime
cap on Buffer lengths). -/

/-- A representable JS Buffer. -/
def ValidB (b : B8) : Prop := b.length < 2 ^ 32

/-- An optional representable Buffer/string. -/
def ValidOB (o : Option B8) : Prop := ∀ s ∈ o, ValidB s

/-- A monetary output as built by `fromOptions`: a nonnegative value (kept
below the `2 ^ 42` varint-decoder cap) and a script buffer. -/
def POutput.Valid (o : POutput) : Prop :=
  0 ≤ o.value ∧ o.value < 2 ^ 42 ∧ ∃ s, o.script = some s ∧ ValidB s

/-- A PaymentDetails in the round-trip domain: numerics below the varint
cap (`expires` may be the sentinel), buffers representable. -/
def PaymentDetails.Valid (pd : PaymentDetails) : Prop :=
  ValidOB pd.network ∧ (∀ o ∈ pd.outputs, o.Valid) ∧
  0 ≤ pd.time ∧ pd.time < 2 ^ 42 ∧
  (pd.expires = -1 ∨ (0 ≤ pd.expires ∧ pd.expires < 2 ^ 42)) ∧
  ValidOB pd.memo ∧ ValidOB pd.paymentUrl ∧ ValidOB pd.merchantData

/-- A PaymentRequest in the round-trip domain: `version` is the sentinel or
an `i32` (as `fromOptions` asserts), the embedded details valid and with an
encoding below the varint cap. -/
def PaymentRequest.Valid (pr : PaymentRequest) : Prop :=
  (pr.version = -1 ∨ (0 ≤ pr.version ∧ pr.version < 2 ^ 31)) ∧
  ValidOB pr.pkiType ∧ ValidOB pr.pkiData ∧
  pr.paymentDetails.Valid ∧ pr.paymentDetails.toRaw.length < 2 ^ 42 ∧
  ValidOB pr.signature

/-- A Payment in the round-trip domain. -/
def Payment.Valid (p : Payment) : Prop :=
  ValidOB p.merchantData ∧ (∀ tx ∈ p.transactions, ValidB tx) ∧
  (∀ o ∈ p.refundTo, o.Valid) ∧ ValidOB p.memo

/-- A PaymentACK in the round-trip domain. -/
def PaymentACK.Valid (a : PaymentACK) : Prop :=
  a.payment.Valid ∧ a.payment.toRaw.length < 2 ^ 42 ∧ ValidOB a.memo

/-! ## Specification-side helper definitions for the theorems -/

/-- The numeric value of a varint byte list starting at group index
`size`. -/
def varintValueAux : B8 → Nat → Nat
  | [], _ => 0
  | b :: rest, size => b % 128 * 2 ^ (7 * size) + varintValueAux rest (size + 1)

/-- A well-formed (terminated) varint byte list: continuation bit set on
every byte but the last. -/
def WFvarint : B8 → Prop
  | [] => False
  | [b] => b < 128
  | b :: rest => 128 ≤ b ∧ WFvarint rest

/-- Rejoin split segments with `'+'` (byte 43); inverse of `splitPlus`. -/
def joinP : List B8 → B8
  | [] => []
  | [a] => a
  | a :: b :: rest => a ++ 43 :: joinP (b :: rest)

/-- `TagOther t rest`: the remaining bytes are exhausted or start with a
parseable field whose tag is not `t` — the situations in which an optional
read of tag `t` comes back absent with the cursor untouched. -/
def TagOther (t : Nat) (rest : B8) : Prop :=
  rest = [] ∨
  (∃ t2 bs r2, t2 ≤ 15 ∧ t2 ≠ t ∧ bs.length < 2 ^ 42 ∧
    rest = writeFieldBytes t2 bs ++ r2) ∨
  (∃ t2 v r2, t2 ≤ 15 ∧ t2 ≠ t ∧ v < 2 ^ 42 ∧
    rest = writeFieldU64 t2 v ++ r2)

/-! ## Varint lemmas -/

theorem getD_mid (pre : B8) (x : Nat) (rest : B8) :
    (pre ++ x :: rest).getD pre.length 0 = x := by
  induction pre with
  | nil => rfl
  | cons a l ih => simpa [List.getD_cons_succ] using ih

theorem WFvarint_cons (a : Nat) (l : B8) (hl : l ≠ []) :
    WFvarint (a :: l) ↔ 128 ≤ a ∧ WFvarint l := by
  match l, hl with
  | b :: t, _ => rfl

theorem varintLoop_wf (bs : B8) : ∀ (pre post : B8) (num size : Nat),
    WFvarint bs → size + bs.length ≤ 6 →
    varintLoop (pre ++ (bs ++ post)) pre.length num size
      = .ok (size + bs.length, num + varintValueAux bs size) := by
  induction bs with
  | nil => intro _ _ _ _ h; exact absurd h (by simp [WFvarint])
  | cons b rest ih =>
    intro pre post num size hwf hsz
    rw [varintLoop]
    rw [if_neg (by simp [List.length_append])]
    have hch : (pre ++ (b :: rest ++ post)).getD pre.length 0 = b := getD_mid pre b (rest ++ post)
    simp only [hch]
    rw [if_pos (by simp only [List.length_cons] at hsz; omega)]
    cases rest with
    | nil =>
      have hb : b < 128 := hwf
      rw [if_pos hb]
      simp [varintValueAux]
    | cons r rs =>
      obtain ⟨hb, hwf2⟩ := (WFvarint_cons b _ (by simp)).mp hwf
      rw [if_neg (by omega)]
      have heq : pre ++ (b :: (r :: rs) ++ post) = (pre ++ [b]) ++ ((r :: rs) ++ post) := by
        simp
      have hlen : pre.length + 1 = (pre ++ [b]).length := by simp
      rw [heq, hlen, ih (pre ++ [b]) post _ _ hwf2 (by simp at hsz ⊢; omega)]
      simp only [Except.ok.injEq, Prod.mk.injEq, varintValueAux, List.length_cons]
      exact ⟨by omega, by ring⟩

theorem _readVarint_wf (pre post bs : B8) (hwf : WFvarint bs) (hsz : bs.length ≤ 6) :
    _readVarint (pre ++ (bs ++ post)) pre.length = .ok (bs.length, varintValueAux bs 0) := by
  simpa [_readVarint] using varintLoop_wf bs pre post 0 0 hwf (by omega)

theorem writeVarint_ne_nil (n : Nat) : writeVarint n ≠ [] := by
  rw [writeVarint]; split <;> simp

theorem writeVarint_small (n : Nat) (h : n < 128) : writeVarint n = [n] := by
  rw [writeVarint, if_pos h]

theorem writeVarint_wf (n : Nat) : WFvarint (writeVarint n) := by
  induction n using Nat.strong_induction_on with
  | _ n ih =>
    rw [writeVarint]
    split
    · next h => exact h
    · next h =>
      rw [WFvarint_cons _ _ (writeVarint_ne_nil _)]
      exact ⟨by omega, ih (n / 128) (Nat.div_lt_self (by omega) (by omega))⟩

theorem writeVarint_length (k : Nat) : ∀ n, 1 ≤ k → n < 128 ^ k →
    (writeVarint n).length ≤ k := by
  induction k with
  | zero => omega
  | succ k ih =>
    intro n _ hn
    rw [writeVarint]
    split
    · simp
    · next h =>
      have hk : 1 ≤ k := by
        rcases Nat.eq_zero_or_pos k with hk0 | hk0
        · subst hk0; simp at hn; omega
        · exact hk0
      have hn2 : n < 128 * 128 ^ k := by rw [← pow_succ']; exact hn
      simpa using ih (n / 128) hk (Nat.div_lt_of_lt_mul hn2)

theorem writeVarint_length42 (n : Nat) (h : n < 2 ^ 42) : (writeVarint n).length ≤ 6 :=
  writeVarint_length 6 n (by omega) (by norm_num at h ⊢; omega)

theorem varintValueAux_write (n : Nat) : ∀ size,
    varintValueAux (writeVarint n) size = n * 2 ^ (7 * size) := by
  induction n using Nat.strong_induction_on with
  | _ n ih =>
    intro size
    rw [writeVarint]
    split
    · next h => simp [varintValueAux, Nat.mod_eq_of_lt h]
    · next h =>
      rw [show varintValueAux ((n % 128 + 128) :: writeVarint (n / 128)) size
            = (n % 128 + 128) % 128 * 2 ^ (7 * size)
              + varintValueAux (writeVarint (n / 128)) (size + 1) from rfl]
      rw [ih (n / 128) (Nat.div_lt_self (by omega) (by omega)) (size + 1)]
      have h1 : (n % 128 + 128) % 128 = n % 128 := by omega
      have h2 : (2 : Nat) ^ (7 * (size + 1)) = 2 ^ (7 * size) * 128 := by
        rw [show 7 * (size + 1) = 7 * size + 7 by ring, pow_add]; norm_num
      rw [h1, h2]
      calc n % 128 * 2 ^ (7 * size) + n / 128 * (2 ^ (7 * size) * 128)
          = (n % 128 + 128 * (n / 128)) * 2 ^ (7 * size) := by ring
        _ = n * 2 ^ (7 * size) := by rw [Nat.mod_add_div]

theorem readVarint_write (pre post : B8) (v : Nat) (hv : v < 2 ^ 42) :
    _readVarint (pre ++ (writeVarint v ++ post)) pre.length
      = .ok ((writeVarint v).length, v) := by
  rw [_readVarint_wf pre post _ (writeVarint_wf v) (writeVarint_length42 v hv)]
  simp [varintValueAux_write]

/-! ## Reader/writer correspondence at the state level -/

theorem RS_nil (X : B8) : (⟨X, 0⟩ : RState) = RS [] X := rfl

theorem readVarintR_enc (pre rest : B8) (v : Nat) (hv : v < 2 ^ 42) :
    readVarintR (RS pre (writeVarint v ++ rest)) = .ok (v, RS (pre ++ writeVarint v) rest) := by
  simp only [readVarintR, RS]
  rw [readVarint_write pre rest v hv]
  simp [List.append_assoc]

theorem readBytesR_enc (pre bs rest : B8) :
    readBytesR bs.length (RS pre (bs ++ rest)) = .ok (bs, RS (pre ++ bs) rest) := by
  simp only [readBytesR, RS]
  rw [if_pos (by simp [List.length_append])]
  rw [show (pre ++ (bs ++ rest)).drop pre.length = bs ++ rest from List.drop_left pre (bs ++ rest)]
  rw [show (bs ++ rest).take bs.length = bs from List.take_left bs rest]
  simp [List.append_assoc]

theorem readVarBytesR_enc (pre bs rest : B8) (h : bs.length < 2 ^ 42) :
    readVarBytesR (RS pre (writeVarint bs.length ++ (bs ++ rest)))
      = .ok (bs, RS (pre ++ (writeVarint bs.length ++ bs)) rest) := by
  simp only [readVarBytesR]
  rw [readVarintR_enc pre (bs ++ rest) _ h]
  dsimp only
  rw [readBytesR_enc (pre ++ writeVarint bs.length) bs rest]
  simp [RS, List.append_assoc]

theorem writeHeader_small (t ty : Nat) (h : t * 8 + ty < 128) :
    writeHeader t ty = [t * 8 + ty] := writeVarint_small _ h

theorem writeFieldBytes_cons (t : Nat) (bs : B8) (ht : t ≤ 15) :
    writeFieldBytes t bs = (t * 8 + 2) :: (writeVarint bs.length ++ bs) := by
  rw [writeFieldBytes, writeHeader_small t 2 (by omega)]
  rfl

theorem writeFieldU64_cons (t v : Nat) (ht : t ≤ 15) :
    writeFieldU64 t v = (t * 8) :: writeVarint v := by
  rw [writeFieldU64, writeHeader_small t 0 (by omega)]
  simp

theorem writeFieldBytes_len_pos (t : Nat) (bs : B8) : 0 < (writeFieldBytes t bs).length := by
  rw [writeFieldBytes, writeHeader]
  cases h : writeVarint (t * 8 + 2) with
  | nil => exact absurd h (writeVarint_ne_nil _)
  | cons a l => simp

theorem writeFieldU64_len_pos (t v : Nat) : 0 < (writeFieldU64 t v).length := by
  rw [writeFieldU64, writeHeader]
  cases h : writeVarint (t * 8) with
  | nil => exact absurd h (writeVarint_ne_nil _)
  | cons a l => simp [h]

/-! ## readField lemmas -/

theorem readVarintR_data (st st1 : RState) (v : Nat)
    (h : readVarintR st = .ok (v, st1)) : st1.data = st.data := by
  unfold readVarintR at h
  split at h
  · exact absurd h (by simp)
  · next heq =>
    rename_i sv
    simp only [Except.ok.injEq, Prod.mk.injEq] at h
    rw [← h.2]

theorem readFieldF_mismatch (st st1 : RState) (header t : Nat) (opt : Bool)
    (hread : readVarintR st = .ok (header, st1)) (hne : header % 2 ^ 32 / 8 ≠ t) :
    readFieldF (some t) opt st
      = if opt then .ok (none, st) else .error "Non-optional field not present." := by
  unfold readFieldF
  rw [hread]
  simp only
  rw [if_neg hne]
  have hd : st1.data = st.data := readVarintR_data st st1 header hread
  cases opt
  · simp
  · simp [hd]

theorem readVarintR_eof (pre : B8) : readVarintR (RS pre []) = .ok (0, RS pre []) := by
  simp only [readVarintR, RS, _readVarint]
  rw [varintLoop]
  rw [if_pos (by simp)]
  simp

theorem readFieldF_ok_some (t : Nat) (opt : Bool) (st st1 : RState) (header : Nat)
    (hread : readVarintR st = .ok (header, st1)) :
    readFieldF (some t) opt st =
      if header % 2 ^ 32 / 8 = t then
        readPayloadF (header % 2 ^ 32 / 8) (header % 8) st.offset st1
      else if opt then .ok (none, ⟨st1.data, st.offset⟩)
      else .error "Non-optional field not present." := by
  unfold readFieldF
  rw [hread]

theorem readFieldF_ok_none (opt : Bool) (st st1 : RState) (header : Nat)
    (hread : readVarintR st = .ok (header, st1)) :
    readFieldF none opt st
      = readPayloadF (header % 2 ^ 32 / 8) (header % 8) st.offset st1 := by
  unfold readFieldF
  rw [hread]

theorem readPayloadF_bytes_enc (pre bs rest : B8) (t : Nat) (ht : t ≤ 15)
    (hbs : bs.length < 2 ^ 42) :
    readPayloadF t 2 pre.length
      (RS (pre ++ writeVarint (t * 8 + 2)) (writeVarint bs.length ++ (bs ++ rest)))
      = .ok (some ⟨t, 2, (writeFieldBytes t bs).length, 0, some bs⟩,
             RS (pre ++ writeFieldBytes t bs) rest) := by
  unfold readPayloadF
  rw [if_neg (by omega), if_neg (by omega), if_pos rfl]
  rw [readVarBytesR_enc (pre ++ writeVarint (t * 8 + 2)) bs rest hbs]
  have hhdr : writeVarint (t * 8 + 2) = [t * 8 + 2] := writeVarint_small _ (by omega)
  simp only [Except.ok.injEq, Prod.mk.injEq, PField.mk.injEq, RS, RState.mk.injEq]
  rw [writeFieldBytes_cons t bs ht, hhdr]
  simp [List.length_append, List.append_assoc]

theorem readFieldF_hit_bytes (pre bs rest : B8) (t : Nat) (tagExp : Option Nat) (opt : Bool)
    (ht : t ≤ 15) (hbs : bs.length < 2 ^ 42) (htag : tagExp = none ∨ tagExp = some t) :
    readFieldF tagExp opt (RS pre (writeFieldBytes t bs ++ rest))
      = .ok (some ⟨t, 2, (writeFieldBytes t bs).length, 0, some bs⟩,
             RS (pre ++ writeFieldBytes t bs) rest) := by
  have hshape : writeFieldBytes t bs ++ rest
      = writeVarint (t * 8 + 2) ++ (writeVarint bs.length ++ (bs ++ rest)) := by
    simp [writeFieldBytes, writeHeader, List.append_assoc]
  have hread := readVarintR_enc pre (writeVarint bs.length ++ (bs ++ rest)) (t * 8 + 2)
    (by
      have h128 : (128 : Nat) ≤ 2 ^ 42 := by norm_num
      omega)
  have h1 : (t * 8 + 2) % 2 ^ 32 / 8 = t := by
    rw [Nat.mod_eq_of_lt (by
        have h32 : (128 : Nat) < 2 ^ 32 := by norm_num
        omega)]
    omega
  have h3 : (t * 8 + 2) % 8 = 2 := by omega
  have hoff : (RS pre (writeVarint (t * 8 + 2)
      ++ (writeVarint bs.length ++ (bs ++ rest)))).offset = pre.length := rfl
  rcases htag with h | h <;> subst h
  · rw [hshape, readFieldF_ok_none _ _ _ _ hread, h1, h3, hoff,
      readPayloadF_bytes_enc pre bs rest t ht hbs]
  · rw [hshape, readFieldF_ok_some t opt _ _ _ hread, if_pos h1, h1, h3, hoff,
      readPayloadF_bytes_enc pre bs rest t ht hbs]

theorem readPayloadF_varint_enc (pre rest : B8) (t v : Nat) (ht : t ≤ 15)
    (hv : v < 2 ^ 42) :
    readPayloadF t 0 pre.length (RS (pre ++ writeVarint (t * 8)) (writeVarint v ++ rest))
      = .ok (some ⟨t, 0, (writeFieldU64 t v).length, v, none⟩,
             RS (pre ++ writeFieldU64 t v) rest) := by
  unfold readPayloadF
  rw [if_pos rfl]
  rw [readVarintR_enc (pre ++ writeVarint (t * 8)) rest v hv]
  have hhdr : writeVarint (t * 8) = [t * 8] := writeVarint_small _ (by omega)
  simp only [Except.ok.injEq, Prod.mk.injEq, PField.mk.injEq, RS, RState.mk.injEq]
  rw [writeFieldU64_cons t v ht, hhdr]
  simp [List.length_append, List.append_assoc]

theorem readFieldF_hit_varint (pre rest : B8) (t v : Nat) (tagExp : Option Nat) (opt : Bool)
    (ht : t ≤ 15) (hv : v < 2 ^ 42) (htag : tagExp = none ∨ tagExp = some t) :
    readFieldF tagExp opt (RS pre (writeFieldU64 t v ++ rest))
      = .ok (some ⟨t, 0, (writeFieldU64 t v).length, v, none⟩,
             RS (pre ++ writeFieldU64 t v) rest) := by
  have hshape : writeFieldU64 t v ++ rest = writeVarint (t * 8) ++ (writeVarint v ++ rest) := by
    simp [writeFieldU64, writeHeader, List.append_assoc]
  have hread := readVarintR_enc pre (writeVarint v ++ rest) (t * 8)
    (by
      have h128 : (128 : Nat) ≤ 2 ^ 42 := by norm_num
      omega)
  have h1 : t * 8 % 2 ^ 32 / 8 = t := by
    rw [Nat.mod_eq_of_lt (by
        have h32 : (128 : Nat) < 2 ^ 32 := by norm_num
        omega)]
    omega
  have h3 : t * 8 % 8 = 0 := by omega
  have hoff : (RS pre (writeVarint (t * 8) ++ (writeVarint v ++ rest))).offset = pre.length := rfl
  rcases htag with h | h <;> subst h
  · rw [hshape, readFieldF_ok_none _ _ _ _ hread, h1, h3, hoff,
      readPayloadF_varint_enc pre rest t v ht hv]
  · rw [hshape, readFieldF_ok_some t opt _ _ _ hread, if_pos h1, h1, h3, hoff,
      readPayloadF_varint_enc pre rest t v ht hv]

/-! ## Typed-accessor lemmas -/

theorem readFieldBytesF_hit (pre bs rest : B8) (t : Nat) (opt : Bool)
    (ht : t ≤ 15) (hbs : bs.length < 2 ^ 42) :
    readFieldBytesF (some t) opt (RS pre (writeFieldBytes t bs ++ rest))
      = .ok (some bs, RS (pre ++ writeFieldBytes t bs) rest) := by
  unfold readFieldBytesF
  rw [readFieldF_hit_bytes pre bs rest t (some t) opt ht hbs (Or.inr rfl)]

theorem readFieldStringF_hit (pre bs rest : B8) (t : Nat) (opt : Bool)
    (ht : t ≤ 15) (hbs : bs.length < 2 ^ 42) :
    readFieldStringF (some t) opt (RS pre (writeFieldString t bs ++ rest))
      = .ok (some bs, RS (pre ++ writeFieldString t bs) rest) :=
  readFieldBytesF_hit pre bs rest t opt ht hbs

theorem readFieldU64F_hit (pre rest : B8) (t v : Nat) (opt : Bool)
    (ht : t ≤ 15) (hv : v < 2 ^ 42) :
    readFieldU64F (some t) opt (RS pre (writeFieldU64 t v ++ rest))
      = .ok ((v : Int), RS (pre ++ writeFieldU64 t v) rest) := by
  unfold readFieldU64F
  rw [readFieldF_hit_varint pre rest t v (some t) opt ht hv (Or.inr rfl)]
  simp

theorem readFieldU32F_hit (pre rest : B8) (t v : Nat) (opt : Bool)
    (ht : t ≤ 15) (hv : v < 2 ^ 42) :
    readFieldU32F (some t) opt (RS pre (writeFieldU32 t v ++ rest))
      = .ok ((v : Int), RS (pre ++ writeFieldU32 t v) rest) := by
  unfold readFieldU32F writeFieldU32
  rw [readFieldF_hit_varint pre rest t v (some t) opt ht hv (Or.inr rfl)]
  simp

theorem readFieldF_skip (pre rest : B8) (t : Nat) (ht0 : t ≠ 0) (h : TagOther t rest) :
    readFieldF (some t) true (RS pre rest) = .ok (none, RS pre rest) := by
  rcases h with h | ⟨t2, bs, r2, h15, hne, hlen, h⟩ | ⟨t2, v, r2, h15, hne, hlen, h⟩
  · subst h
    rw [readFieldF_mismatch (RS pre []) (RS pre []) 0 t true (readVarintR_eof pre)
      (by simpa using ht0.symm)]
    simp
  · subst h
    rw [writeFieldBytes_cons t2 bs h15]
    have hread := readVarintR_enc pre (writeVarint bs.length ++ bs ++ r2) (t2 * 8 + 2)
      (by
        have h128 : (128 : Nat) ≤ 2 ^ 42 := by norm_num
        omega)
    rw [show (t2 * 8 + 2) :: (writeVarint bs.length ++ bs) ++ r2
        = writeVarint (t2 * 8 + 2) ++ (writeVarint bs.length ++ bs ++ r2) by
      rw [writeVarint_small (t2 * 8 + 2) (by omega)]
      simp]
    rw [readFieldF_mismatch _ _ (t2 * 8 + 2) t true hread
      (by
        rw [Nat.mod_eq_of_lt (by
          have h32 : (128 : Nat) < 2 ^ 32 := by norm_num
          omega)]
        omega)]
    simp
  · subst h
    rw [writeFieldU64_cons t2 v h15]
    have hread := readVarintR_enc pre (writeVarint v ++ r2) (t2 * 8)
      (by
        have h128 : (128 : Nat) ≤ 2 ^ 42 := by norm_num
        omega)
    rw [show (t2 * 8) :: writeVarint v ++ r2 = writeVarint (t2 * 8) ++ (writeVarint v ++ r2) by
      rw [writeVarint_small (t2 * 8) (by omega)]
      simp]
    rw [readFieldF_mismatch _ _ (t2 * 8) t true hread
      (by
        rw [Nat.mod_eq_of_lt (by
          have h32 : (128 : Nat) < 2 ^ 32 := by norm_num
          omega)]
        omega)]
    simp

theorem readFieldBytesF_skip (pre rest : B8) (t : Nat) (ht0 : t ≠ 0) (h : TagOther t rest) :
    readFieldBytesF (some t) true (RS pre rest) = .ok (none, RS pre rest) := by
  unfold readFieldBytesF
  rw [readFieldF_skip pre rest t ht0 h]

theorem readFieldStringF_skip (pre rest : B8) (t : Nat) (ht0 : t ≠ 0) (h : TagOther t rest) :
    readFieldStringF (some t) true (RS pre rest) = .ok (none, RS pre rest) :=
  readFieldBytesF_skip pre rest t ht0 h

theorem readFieldU64F_skip (pre rest : B8) (t : Nat) (ht0 : t ≠ 0) (h : TagOther t rest) :
    readFieldU64F (some t) true (RS pre rest) = .ok (-1, RS pre rest) := by
  unfold readFieldU64F
  rw [readFieldF_skip pre rest t ht0 h]

theorem readFieldU32F_skip (pre rest : B8) (t : Nat) (ht0 : t ≠ 0) (h : TagOther t rest) :
    readFieldU32F (some t) true (RS pre rest) = .ok (-1, RS pre rest) := by
  unfold readFieldU32F
  rw [readFieldF_skip pre rest t ht0 h]

/-! ## nextTag lemmas -/

theorem nextTagF_eof (pre : B8) : nextTagF (RS pre []) = .ok (-1) := by
  unfold nextTagF
  rw [if_pos (by simp [RS])]

theorem nextTagF_bytes (pre bs rest : B8) (t : Nat) (ht : t ≤ 15) (hbs : bs.length < 2 ^ 42) :
    nextTagF (RS pre (writeFieldBytes t bs ++ rest)) = .ok (t : Int) := by
  unfold nextTagF
  rw [if_neg (by
    show ¬((pre ++ (writeFieldBytes t bs ++ rest)).length - pre.length = 0)
    have hp := writeFieldBytes_len_pos t bs
    simp only [List.length_append]
    omega)]
  rw [readFieldF_hit_bytes pre bs rest t none false ht hbs (Or.inl rfl)]

theorem nextTagF_varint (pre rest : B8) (t v : Nat) (ht : t ≤ 15) (hv : v < 2 ^ 42) :
    nextTagF (RS pre (writeFieldU64 t v ++ rest)) = .ok (t : Int) := by
  unfold nextTagF
  rw [if_neg (by
    show ¬((pre ++ (writeFieldU64 t v ++ rest)).length - pre.length = 0)
    have hp := writeFieldU64_len_pos t v
    simp only [List.length_append]
    omega)]
  rw [readFieldF_hit_varint pre rest t v none false ht hv (Or.inl rfl)]

theorem nextTagF_other (t : Nat) (pre rest : B8) (h : TagOther t rest) :
    ∃ z : Int, nextTagF (RS pre rest) = .ok z ∧ z ≠ (t : Int) := by
  rcases h with h | ⟨t2, bs, r2, h15, hne, hlen, h⟩ | ⟨t2, v, r2, h15, hne, hlen, h⟩
  · subst h
    exact ⟨-1, nextTagF_eof pre, by omega⟩
  · subst h
    exact ⟨(t2 : Int), nextTagF_bytes pre bs r2 t2 h15 hlen, by exact_mod_cast hne⟩
  · subst h
    exact ⟨(t2 : Int), nextTagF_varint pre r2 t2 v h15 hlen, by exact_mod_cast hne⟩

/-! ## TagOther introduction helpers -/

theorem tagOther_nil (t : Nat) : TagOther t [] := Or.inl rfl

theorem tagOther_bytes (t t2 : Nat) (bs r2 : B8) (h1 : t2 ≤ 15) (h2 : t2 ≠ t)
    (h3 : bs.length < 2 ^ 42) : TagOther t (writeFieldBytes t2 bs ++ r2) :=
  Or.inr (Or.inl ⟨t2, bs, r2, h1, h2, h3, rfl⟩)

theorem tagOther_u64 (t t2 v : Nat) (r2 : B8) (h1 : t2 ≤ 15) (h2 : t2 ≠ t)
    (h3 : v < 2 ^ 42) : TagOther t (writeFieldU64 t2 v ++ r2) :=
  Or.inr (Or.inr ⟨t2, v, r2, h1, h2, h3, rfl⟩)

theorem tagOther_optStr (t t2 : Nat) (o : Option B8) (rest : B8) (h1 : t2 ≤ 15)
    (h2 : t2 ≠ t) (ho : ∀ s ∈ o, s.length < 2 ^ 42)
    (hrest : o = none → TagOther t rest) : TagOther t (optStrW t2 o ++ rest) := by
  cases o with
  | none => simpa [optStrW] using hrest rfl
  | some s => exact tagOther_bytes t t2 s rest h1 h2 (ho s rfl)

theorem tagOther_optBytes (t t2 : Nat) (o : Option B8) (rest : B8) (h1 : t2 ≤ 15)
    (h2 : t2 ≠ t) (ho : ∀ s ∈ o, s.length < 2 ^ 42)
    (hrest : o = none → TagOther t rest) : TagOther t (optBytesW t2 o ++ rest) := by
  cases o with
  | none => simpa [optBytesW] using hrest rfl
  | some s => exact tagOther_bytes t t2 s rest h1 h2 (ho s rfl)

theorem tagOther_optU64 (t t2 : Nat) (e : Int) (rest : B8) (h1 : t2 ≤ 15) (h2 : t2 ≠ t)
    (he : e = -1 ∨ (0 ≤ e ∧ e < 2 ^ 42))
    (hrest : e = -1 → TagOther t rest) : TagOther t (optU64W t2 e ++ rest) := by
  by_cases hs : e = -1
  · simpa [optU64W, hs] using hrest hs
  · rw [optU64W, if_pos hs]
    refine tagOther_u64 t t2 e.toNat rest h1 h2 ?_
    rcases he with he | ⟨he1, he2⟩
    · exact absurd he hs
    · have h42 : ((2 : Int) ^ 42 : Int) = ((2 ^ 42 : Nat) : Int) := by norm_num
      omega

theorem optU32W_eq (t : Nat) (v : Int) : optU32W t v = optU64W t v := by
  simp [optU32W, optU64W, writeFieldU32]

theorem tagOther_outs (t tag : Nat) (outs : List POutput) (rest : B8)
    (h1 : tag ≤ 15) (h2 : tag ≠ t)
    (houts : ∀ o ∈ outs, o.Valid)
    (hinner : ∀ o ∈ outs,
      (writeFieldU64 1 o.value.toNat ++ writeFieldBytes 2 (o.script.getD [])).length < 2 ^ 42)
    (hrest : outs = [] → TagOther t rest) :
    TagOther t (encOutsTagged tag outs ++ rest) := by
  cases outs with
  | nil => simpa [encOutsTagged] using hrest rfl
  | cons o os =>
    rw [show encOutsTagged tag (o :: os) ++ rest
        = writeFieldBytes tag (writeFieldU64 1 o.value.toNat
            ++ writeFieldBytes 2 (o.script.getD []))
          ++ (encOutsTagged tag os ++ rest) by
      simp [encOutsTagged, encOutTagged, List.append_assoc]]
    exact tagOther_bytes t tag _ _ h1 h2 (hinner o (by simp))

theorem tagOther_txs (t : Nat) (txs : List B8) (rest : B8) (h2 : (2 : Nat) ≠ t)
    (htxs : ∀ tx ∈ txs, tx.length < 2 ^ 42)
    (hrest : txs = [] → TagOther t rest) :
    TagOther t (encTxs txs ++ rest) := by
  cases txs with
  | nil => simpa [encTxs] using hrest rfl
  | cons tx txs2 =>
    rw [show encTxs (tx :: txs2) ++ rest
        = writeFieldBytes 2 tx ++ (encTxs txs2 ++ rest) by
      simp [encTxs, List.append_assoc]]
    exact tagOther_bytes t 2 _ _ (by omega) h2 (htxs tx (by simp))

/-! ## Optional-field round-trip lemmas -/

theorem readOptStrL (t : Nat) (o : Option B8) (pre rest : B8) (ht : t ≤ 15) (ht0 : t ≠ 0)
    (ho : ∀ s ∈ o, s.length < 2 ^ 42) (hnext : o = none → TagOther t rest) :
    readFieldStringF (some t) true (RS pre (optStrW t o ++ rest))
      = .ok (o, RS (pre ++ optStrW t o) rest) := by
  cases o with
  | none =>
    rw [show optStrW t none = ([] : B8) from rfl]
    rw [show ([] : B8) ++ rest = rest from rfl]
    rw [readFieldStringF_skip pre rest t ht0 (hnext rfl)]
    simp [RS]
  | some s =>
    rw [show optStrW t (some s) = writeFieldString t s from rfl]
    exact readFieldStringF_hit pre s rest t true ht (ho s rfl)

theorem readOptBytesL (t : Nat) (o : Option B8) (pre rest : B8) (ht : t ≤ 15) (ht0 : t ≠ 0)
    (ho : ∀ s ∈ o, s.length < 2 ^ 42) (hnext : o = none → TagOther t rest) :
    readFieldBytesF (some t) true (RS pre (optBytesW t o ++ rest))
      = .ok (o, RS (pre ++ optBytesW t o) rest) := by
  cases o with
  | none =>
    rw [show optBytesW t none = ([] : B8) from rfl]
    rw [show ([] : B8) ++ rest = rest from rfl]
    rw [readFieldBytesF_skip pre rest t ht0 (hnext rfl)]
    simp [RS]
  | some s =>
    rw [show optBytesW t (some s) = writeFieldBytes t s from rfl]
    exact readFieldBytesF_hit pre s rest t true ht (ho s rfl)

theorem readOptU64L (t : Nat) (e : Int) (pre rest : B8) (ht : t ≤ 15) (ht0 : t ≠ 0)
    (he : e = -1 ∨ (0 ≤ e ∧ e < 2 ^ 42)) (hnext : e = -1 → TagOther t rest) :
    readFieldU64F (some t) true (RS pre (optU64W t e ++ rest))
      = .ok (e, RS (pre ++ optU64W t e) rest) := by
  by_cases hs : e = -1
  · rw [show optU64W t e = ([] : B8) by simp [optU64W, hs]]
    rw [show ([] : B8) ++ rest = rest from rfl]
    rw [readFieldU64F_skip pre rest t ht0 (hnext hs)]
    simp [RS, hs]
  · rcases he with he | ⟨he1, he2⟩
    · exact absurd he hs
    · rw [show optU64W t e = writeFieldU64 t e.toNat by simp [optU64W, hs]]
      have hlt : e.toNat < 2 ^ 42 := by
        have h42 : ((2 : Int) ^ 42 : Int) = ((2 ^ 42 : Nat) : Int) := by norm_num
        omega
      rw [readFieldU64F_hit pre rest t e.toNat true ht hlt]
      congr 1
      rw [Int.toNat_of_nonneg he1]

theorem readOptU32L (t : Nat) (e : Int) (pre rest : B8) (ht : t ≤ 15) (ht0 : t ≠ 0)
    (he : e = -1 ∨ (0 ≤ e ∧ e < 2 ^ 42)) (hnext : e = -1 → TagOther t rest) :
    readFieldU32F (some t) true (RS pre (optU32W t e ++ rest))
      = .ok (e, RS (pre ++ optU32W t e) rest) := by
  by_cases hs : e = -1
  · rw [show optU32W t e = ([] : B8) by simp [optU32W, hs]]
    rw [show ([] : B8) ++ rest = rest from rfl]
    rw [readFieldU32F_skip pre rest t ht0 (hnext hs)]
    simp [RS, hs]
  · rcases he with he | ⟨he1, he2⟩
    · exact absurd he hs
    · rw [show optU32W t e = writeFieldU32 t e.toNat by simp [optU32W, hs]]
      have hlt : e.toNat < 2 ^ 42 := by
        have h42 : ((2 : Int) ^ 42 : Int) = ((2 ^ 42 : Nat) : Int) := by norm_num
        omega
      rw [readFieldU32F_hit pre rest t e.toNat true ht hlt]
      congr 1
      rw [Int.toNat_of_nonneg he1]

/-! ## Length bounds -/

theorem writeFieldBytes_len_le (t : Nat) (bs : B8) (ht : t ≤ 15) (hbs : bs.length < 2 ^ 42) :
    (writeFieldBytes t bs).length ≤ 7 + bs.length := by
  rw [writeFieldBytes_cons t bs ht]
  have := writeVarint_length42 bs.length hbs
  simp only [List.length_cons, List.length_append]
  omega

theorem writeFieldU64_len_le (t v : Nat) (ht : t ≤ 15) (hv : v < 2 ^ 42) :
    (writeFieldU64 t v).length ≤ 7 := by
  rw [writeFieldU64_cons t v ht]
  have := writeVarint_length42 v hv
  simp only [List.length_cons]
  omega

theorem encOutInner_len (o : POutput) (ho : o.Valid) :
    (writeFieldU64 1 o.value.toNat ++ writeFieldBytes 2 (o.script.getD [])).length
      < 2 ^ 42 := by
  obtain ⟨h0, h1, s, hs, hsv⟩ := ho
  have hv : o.value.toNat < 2 ^ 42 := by
    have h42 : ((2 : Int) ^ 42 : Int) = ((2 ^ 42 : Nat) : Int) := by norm_num
    omega
  have ha := writeFieldU64_len_le 1 o.value.toNat (by omega) hv
  have hslen : (o.script.getD []).length < 2 ^ 42 := by
    rw [hs]
    have : (2 : Nat) ^ 32 < 2 ^ 42 := by norm_num
    simp only [Option.getD_some]
    exact lt_trans hsv this
  have hb := writeFieldBytes_len_le 2 (o.script.getD []) (by omega) hslen
  have hs32 : (o.script.getD []).length < 2 ^ 32 := by
    rw [hs]
    simpa using hsv
  have hpow : (2 : Nat) ^ 32 + 14 < 2 ^ 42 := by norm_num
  simp only [List.length_append]
  omega

theorem count_le_flatten (l : List B8) (h : ∀ x ∈ l, 0 < x.length) :
    l.length ≤ l.flatten.length := by
  induction l with
  | nil => simp
  | cons a t ih =>
    simp only [List.length_cons, List.flatten_cons, List.length_append]
    have ha := h a (by simp)
    have ht := ih (fun x hx => h x (by simp [hx]))
    omega

theorem encOutsTagged_count (tag : Nat) (outs : List POutput) :
    outs.length ≤ (encOutsTagged tag outs).length := by
  have := count_le_flatten (outs.map (encOutTagged tag)) (by
    intro x hx
    obtain ⟨o, _, rfl⟩ := List.mem_map.mp hx
    exact writeFieldBytes_len_pos _ _)
  simpa [encOutsTagged] using this

theorem encTxs_count (txs : List B8) : txs.length ≤ (encTxs txs).length := by
  have := count_le_flatten (txs.map (fun tx => writeFieldBytes 2 tx)) (by
    intro x hx
    obtain ⟨o, _, rfl⟩ := List.mem_map.mp hx
    exact writeFieldBytes_len_pos _ _)
  simpa [encTxs] using this

/-! ## Repeated-field loop lemmas -/

theorem innerU64 (v : Nat) (sEnc : B8) (hv : v < 2 ^ 42) :
    readFieldU64F (some 1) true ⟨writeFieldU64 1 v ++ sEnc, 0⟩
      = .ok ((v : Int), RS (writeFieldU64 1 v) sEnc) := by
  exact readFieldU64F_hit [] sEnc 1 v true (by omega) hv

theorem innerBytes (pre2 s : B8) (hs : s.length < 2 ^ 42) :
    readFieldBytesF (some 2) true (RS pre2 (writeFieldBytes 2 s))
      = .ok (some s, RS (pre2 ++ writeFieldBytes 2 s) []) := by
  have h := readFieldBytesF_hit pre2 s [] 2 true (by omega) hs
  simpa using h

theorem readOutputsLoop_enc (tag : Nat) (htag : tag ≤ 15) (htag0 : tag ≠ 0)
    (outs : List POutput) : ∀ (pre rest : B8) (acc : List POutput) (fl : Nat),
    outs.length < fl → (∀ o ∈ outs, o.Valid) → TagOther tag rest →
    readOutputsLoop tag fl (RS pre (encOutsTagged tag outs ++ rest)) acc
      = .ok (acc ++ outs, RS (pre ++ encOutsTagged tag outs) rest) := by
  induction outs with
  | nil =>
    intro pre rest acc fl hfl _ hother
    cases fl with
    | zero => omega
    | succ fl2 =>
      rw [show encOutsTagged tag [] ++ rest = rest from rfl]
      rw [readOutputsLoop]
      obtain ⟨z, hz, hzne⟩ := nextTagF_other tag pre rest hother
      rw [hz]
      dsimp only
      rw [if_neg hzne]
      simp [RS, encOutsTagged]
  | cons o os ih =>
    intro pre rest acc fl hfl hvalid hother
    cases fl with
    | zero => simp at hfl
    | succ fl2 =>
      have hoV := hvalid o (by simp)
      obtain ⟨hv0, hv1, s, hs, hsV⟩ := hvalid o (by simp)
      have hvnat : o.value.toNat < 2 ^ 42 := by
        have h42 : ((2 : Int) ^ 42 : Int) = ((2 ^ 42 : Nat) : Int) := by norm_num
        omega
      have hsVl : s.length < 2 ^ 32 := hsV
      have hslen : (o.script.getD []).length < 2 ^ 42 := by
        rw [hs]
        have h1 : (2 : Nat) ^ 32 < 2 ^ 42 := by norm_num
        simp only [Option.getD_some]
        omega
      have hinlen : (writeFieldU64 1 o.value.toNat
          ++ writeFieldBytes 2 (o.script.getD [])).length < 2 ^ 42 := encOutInner_len o hoV
      have hshape : encOutsTagged tag (o :: os) ++ rest
          = writeFieldBytes tag (writeFieldU64 1 o.value.toNat
              ++ writeFieldBytes 2 (o.script.getD []))
            ++ (encOutsTagged tag os ++ rest) := by
        simp [encOutsTagged, encOutTagged, List.append_assoc]
      rw [hshape]
      rw [readOutputsLoop]
      rw [nextTagF_bytes pre _ _ tag htag hinlen]
      dsimp only
      rw [if_pos rfl]
      rw [readFieldBytesF_hit pre _ _ tag false htag hinlen]
      dsimp only
      rw [innerU64 o.value.toNat _ hvnat]
      dsimp only
      rw [innerBytes (writeFieldU64 1 o.value.toNat) (o.script.getD []) hslen]
      dsimp only
      have hoeq : (⟨((o.value.toNat : Nat) : Int), some (o.script.getD [])⟩ : POutput) = o := by
        obtain ⟨ov, osc⟩ := o
        simp only at hs hv0
        simp [Int.toNat_of_nonneg hv0, hs]
      rw [hoeq]
      rw [ih (pre ++ writeFieldBytes tag (writeFieldU64 1 o.value.toNat
            ++ writeFieldBytes 2 (o.script.getD []))) rest (acc ++ [o]) fl2
          (by simp at hfl; omega)
          (fun o2 ho2 => hvalid o2 (by simp [ho2]))
          hother]
      simp [RS, encOutsTagged, encOutTagged, List.append_assoc]

theorem readTxLoop_enc (txs : List B8) : ∀ (pre rest : B8) (acc : List B8) (fl : Nat),
    txs.length < fl → (∀ tx ∈ txs, tx.length < 2 ^ 42) → TagOther 2 rest →
    readTxLoop fl (RS pre (encTxs txs ++ rest)) acc
      = .ok (acc ++ txs, RS (pre ++ encTxs txs) rest) := by
  induction txs with
  | nil =>
    intro pre rest acc fl hfl _ hother
    cases fl with
    | zero => omega
    | succ fl2 =>
      rw [show encTxs [] ++ rest = rest from rfl]
      rw [readTxLoop]
      obtain ⟨z, hz, hzne⟩ := nextTagF_other 2 pre rest hother
      rw [hz]
      dsimp only
      rw [if_neg (by simpa using hzne)]
      simp [RS, encTxs]
  | cons tx txs2 ih =>
    intro pre rest acc fl hfl hvalid hother
    cases fl with
    | zero => simp at hfl
    | succ fl2 =>
      have hlen := hvalid tx (by simp)
      have hshape : encTxs (tx :: txs2) ++ rest
          = writeFieldBytes 2 tx ++ (encTxs txs2 ++ rest) := by
        simp [encTxs, List.append_assoc]
      rw [hshape]
      rw [readTxLoop]
      rw [nextTagF_bytes pre _ _ 2 (by omega) hlen]
      dsimp only
      rw [if_pos (by norm_num)]
      rw [readFieldBytesF_hit pre _ _ 2 false (by omega) hlen]
      dsimp only
      rw [ih (pre ++ writeFieldBytes 2 tx) rest (acc ++ [tx]) fl2
          (by simp at hfl; omega)
          (fun tx2 htx2 => hvalid tx2 (by simp [htx2]))
          hother]
      simp [RS, encTxs, List.append_assoc]

theorem chainLoop_enc (certs : List B8) : ∀ (pre rest : B8) (acc : List B8) (fl : Nat),
    certs.length < fl → (∀ c ∈ certs, c.length < 2 ^ 42) → TagOther 1 rest →
    chainLoop fl (RS pre ((certs.map (fun c => writeFieldBytes 1 c)).flatten ++ rest)) acc
      = .ok (acc ++ certs) := by
  induction certs with
  | nil =>
    intro pre rest acc fl hfl _ hother
    cases fl with
    | zero => omega
    | succ fl2 =>
      rw [show (([] : List B8).map (fun c => writeFieldBytes 1 c)).flatten ++ rest
            = rest from rfl]
      rw [chainLoop]
      obtain ⟨z, hz, hzne⟩ := nextTagF_other 1 pre rest hother
      rw [hz]
      dsimp only
      rw [if_neg (by simpa using hzne)]
      simp
  | cons c cs ih =>
    intro pre rest acc fl hfl hvalid hother
    cases fl with
    | zero => simp at hfl
    | succ fl2 =>
      have hlen := hvalid c (by simp)
      have hshape : (((c :: cs) : List B8).map (fun x => writeFieldBytes 1 x)).flatten ++ rest
          = writeFieldBytes 1 c ++ ((cs.map (fun x => writeFieldBytes 1 x)).flatten ++ rest) := by
        simp [List.append_assoc]
      rw [hshape]
      rw [chainLoop]
      rw [nextTagF_bytes pre _ _ 1 (by omega) hlen]
      dsimp only
      rw [if_pos (by norm_num)]
      rw [readFieldBytesF_hit pre _ _ 1 false (by omega) hlen]
      dsimp only
      rw [ih (pre ++ writeFieldBytes 1 c) rest (acc ++ [c]) fl2
          (by simp at hfl; omega)
          (fun c2 hc2 => hvalid c2 (by simp [hc2]))
          hother]
      simp

/-! ## Message round-trips -/

theorem validOB_42 (o : Option B8) (h : ValidOB o) : ∀ s ∈ o, s.length < 2 ^ 42 := by
  intro s hs
  have h32 : s.length < 2 ^ 32 := h s hs
  have hp : (2 : Nat) ^ 32 < 2 ^ 42 := by norm_num
  omega

theorem int_toNat_lt42 (e : Int) (h1 : e < 2 ^ 42) : e.toNat < 2 ^ 42 := by
  have h42 : ((2 : Int) ^ 42 : Int) = ((2 ^ 42 : Nat) : Int) := by norm_num
  omega

theorem tagOther_str_last (t t2 : Nat) (o : Option B8) (h1 : t2 ≤ 15) (h2 : t2 ≠ t)
    (ho : ∀ s ∈ o, s.length < 2 ^ 42) : TagOther t (optStrW t2 o) := by
  cases o with
  | none => exact tagOther_nil t
  | some s =>
    exact Or.inr (Or.inl ⟨t2, s, [], h1, h2, ho s rfl, by
      simp [optStrW, writeFieldString]⟩)

theorem tagOther_bytes_last (t t2 : Nat) (o : Option B8) (h1 : t2 ≤ 15) (h2 : t2 ≠ t)
    (ho : ∀ s ∈ o, s.length < 2 ^ 42) : TagOther t (optBytesW t2 o) := by
  cases o with
  | none => exact tagOther_nil t
  | some s =>
    exact Or.inr (Or.inl ⟨t2, s, [], h1, h2, ho s rfl, by simp [optBytesW]⟩)

theorem pd_toRaw_shape (pd : PaymentDetails) :
    pd.toRaw = optStrW 1 pd.network ++
      (encOutsTagged 2 pd.outputs ++
      (writeFieldU64 3 pd.time.toNat ++
      (optU64W 4 pd.expires ++
      (optStrW 5 pd.memo ++
      (optStrW 6 pd.paymentUrl ++
      (optBytesW 7 pd.merchantData ++ [])))))) := by
  cases hmd : pd.merchantData <;>
    simp [PaymentDetails.toRaw, encOutputs, optStrW, optBytesW, writeFieldString, hmd]

theorem pd_roundtrip (pd : PaymentDetails) (h : pd.Valid) :
    PaymentDetails.fromRaw pd.toRaw = .ok pd := by
  obtain ⟨hn, ho, ht0, ht1, he, hm, hpu, hmd⟩ := h
  have httoNat : pd.time.toNat < 2 ^ 42 := int_toNat_lt42 pd.time ht1
  have hinner : ∀ o ∈ pd.outputs,
      (writeFieldU64 1 o.value.toNat ++ writeFieldBytes 2 (o.script.getD [])).length
        < 2 ^ 42 := fun o hom => encOutInner_len o (ho o hom)
  -- TagOther facts, innermost first
  have hT7 : TagOther 7 ([] : B8) := tagOther_nil 7
  have hT6 : TagOther 6 (optBytesW 7 pd.merchantData ++ []) := by
    rw [List.append_nil]
    exact tagOther_bytes_last 6 7 pd.merchantData (by omega) (by omega) (validOB_42 _ hmd)
  have hT5 : TagOther 5 (optStrW 6 pd.paymentUrl ++ (optBytesW 7 pd.merchantData ++ [])) :=
    tagOther_optStr 5 6 pd.paymentUrl _ (by omega) (by omega) (validOB_42 _ hpu)
      (fun _ => by
        rw [List.append_nil]
        exact tagOther_bytes_last 5 7 pd.merchantData (by omega) (by omega) (validOB_42 _ hmd))
  have hT4 : TagOther 4 (optStrW 5 pd.memo ++ (optStrW 6 pd.paymentUrl
      ++ (optBytesW 7 pd.merchantData ++ []))) :=
    tagOther_optStr 4 5 pd.memo _ (by omega) (by omega) (validOB_42 _ hm)
      (fun _ => tagOther_optStr 4 6 pd.paymentUrl _ (by omega) (by omega) (validOB_42 _ hpu)
        (fun _ => by
          rw [List.append_nil]
          exact tagOther_bytes_last 4 7 pd.merchantData (by omega) (by omega)
            (validOB_42 _ hmd)))
  have hT2 : TagOther 2 (writeFieldU64 3 pd.time.toNat ++ (optU64W 4 pd.expires
      ++ (optStrW 5 pd.memo ++ (optStrW 6 pd.paymentUrl
      ++ (optBytesW 7 pd.merchantData ++ []))))) :=
    tagOther_u64 2 3 pd.time.toNat _ (by omega) (by omega) httoNat
  have hT1 : TagOther 1 (encOutsTagged 2 pd.outputs ++ (writeFieldU64 3 pd.time.toNat
      ++ (optU64W 4 pd.expires ++ (optStrW 5 pd.memo ++ (optStrW 6 pd.paymentUrl
      ++ (optBytesW 7 pd.merchantData ++ [])))))) :=
    tagOther_outs 1 2 pd.outputs _ (by omega) (by omega) ho hinner
      (fun _ => tagOther_u64 1 3 pd.time.toNat _ (by omega) (by omega) httoNat)
  rw [PaymentDetails.fromRaw, pd_toRaw_shape pd, RS_nil]
  rw [readOptStrL 1 pd.network _ _ (by omega) (by omega) (validOB_42 _ hn) (fun _ => hT1)]
  dsimp only
  rw [readOutputsLoop_enc 2 (by omega) (by omega) pd.outputs _ _ [] _
      (by
        have hcnt := encOutsTagged_count 2 pd.outputs
        simp only [List.length_append]
        omega)
      ho hT2]
  dsimp only
  rw [readFieldU64F_hit _ _ 3 pd.time.toNat false (by omega) httoNat]
  dsimp only
  rw [readOptU64L 4 pd.expires _ _ (by omega) (by omega) he (fun _ => hT4)]
  dsimp only
  rw [readOptStrL 5 pd.memo _ _ (by omega) (by omega) (validOB_42 _ hm) (fun _ => hT5)]
  dsimp only
  rw [readOptStrL 6 pd.paymentUrl _ _ (by omega) (by omega) (validOB_42 _ hpu)
      (fun _ => hT6)]
  dsimp only
  rw [readOptBytesL 7 pd.merchantData _ _ (by omega) (by omega) (validOB_42 _ hmd)
      (fun _ => hT7)]
  dsimp only
  simp [Int.toNat_of_nonneg ht0]

theorem validList_42 (l : List B8) (h : ∀ b ∈ l, ValidB b) : ∀ b ∈ l, b.length < 2 ^ 42 := by
  intro b hb
  have h32 : b.length < 2 ^ 32 := h b hb
  have hp : (2 : Nat) ^ 32 < 2 ^ 42 := by norm_num
  omega

theorem p_toRaw_shape (p : Payment) :
    p.toRaw = optBytesW 1 p.merchantData ++
      (encTxs p.transactions ++
      (encOutsTagged 3 p.refundTo ++
      (optStrW 4 p.memo ++ []))) := by
  simp [Payment.toRaw, encRefunds]

theorem p_roundtrip (p : Payment) (h : p.Valid) : Payment.fromRaw p.toRaw = .ok p := by
  obtain ⟨hmd, htx, hrf, hm⟩ := h
  have htx42 := validList_42 p.transactions htx
  have hinner : ∀ o ∈ p.refundTo,
      (writeFieldU64 1 o.value.toNat ++ writeFieldBytes 2 (o.script.getD [])).length
        < 2 ^ 42 := fun o hom => encOutInner_len o (hrf o hom)
  have hT3 : TagOther 3 (optStrW 4 p.memo ++ []) :=
    tagOther_optStr 3 4 p.memo [] (by omega) (by omega) (validOB_42 _ hm)
      (fun _ => tagOther_nil 3)
  have hT2 : TagOther 2 (encOutsTagged 3 p.refundTo ++ (optStrW 4 p.memo ++ [])) :=
    tagOther_outs 2 3 p.refundTo _ (by omega) (by omega) hrf hinner
      (fun _ => tagOther_optStr 2 4 p.memo [] (by omega) (by omega) (validOB_42 _ hm)
        (fun _ => tagOther_nil 2))
  have hT1 : TagOther 1 (encTxs p.transactions ++ (encOutsTagged 3 p.refundTo
      ++ (optStrW 4 p.memo ++ []))) :=
    tagOther_txs 1 p.transactions _ (by omega) htx42
      (fun _ => tagOther_outs 1 3 p.refundTo _ (by omega) (by omega) hrf hinner
        (fun _ => tagOther_optStr 1 4 p.memo [] (by omega) (by omega) (validOB_42 _ hm)
          (fun _ => tagOther_nil 1)))
  rw [Payment.fromRaw, p_toRaw_shape p, RS_nil]
  rw [readOptBytesL 1 p.merchantData _ _ (by omega) (by omega) (validOB_42 _ hmd)
      (fun _ => hT1)]
  dsimp only
  rw [readTxLoop_enc p.transactions _ _ [] _
      (by
        have hcnt := encTxs_count p.transactions
        simp only [List.length_append]
        omega)
      htx42 hT2]
  dsimp only
  rw [readOutputsLoop_enc 3 (by omega) (by omega) p.refundTo _ _ [] _
      (by
        have hcnt := encOutsTagged_count 3 p.refundTo
        simp only [List.length_append]
        omega)
      hrf hT3]
  dsimp only
  rw [readOptStrL 4 p.memo _ _ (by omega) (by omega) (validOB_42 _ hm)
      (fun _ => tagOther_nil 4)]
  dsimp only
  simp

theorem pr_toRaw_shape (pr : PaymentRequest) :
    pr.toRaw = optU32W 1 pr.version ++
      (optStrW 2 pr.pkiType ++
      (optBytesW 3 pr.pkiData ++
      (writeFieldBytes 4 pr.paymentDetails.toRaw ++
      (optBytesW 5 pr.signature ++ [])))) := by
  simp [PaymentRequest.toRaw]

theorem pr_roundtrip (pr : PaymentRequest) (h : pr.Valid) :
    PaymentRequest.fromRaw pr.toRaw = .ok pr := by
  obtain ⟨hv, hpt, hpd, hdet, hdlen, hsig⟩ := h
  have hv42 : pr.version = -1 ∨ (0 ≤ pr.version ∧ pr.version < 2 ^ 42) := by
    rcases hv with hv | ⟨hv1, hv2⟩
    · exact Or.inl hv
    · refine Or.inr ⟨hv1, ?_⟩
      have hp : (2 : Int) ^ 31 < 2 ^ 42 := by norm_num
      omega
  have hT4 : TagOther 4 (optBytesW 5 pr.signature ++ []) := by
    rw [List.append_nil]
    exact tagOther_bytes_last 4 5 pr.signature (by omega) (by omega) (validOB_42 _ hsig)
  have hT3 : TagOther 3 (writeFieldBytes 4 pr.paymentDetails.toRaw
      ++ (optBytesW 5 pr.signature ++ [])) :=
    tagOther_bytes 3 4 pr.paymentDetails.toRaw _ (by omega) (by omega) hdlen
  have hT2 : TagOther 2 (optBytesW 3 pr.pkiData ++ (writeFieldBytes 4 pr.paymentDetails.toRaw
      ++ (optBytesW 5 pr.signature ++ []))) :=
    tagOther_optBytes 2 3 pr.pkiData _ (by omega) (by omega) (validOB_42 _ hpd)
      (fun _ => tagOther_bytes 2 4 pr.paymentDetails.toRaw _ (by omega) (by omega) hdlen)
  have hT1 : TagOther 1 (optStrW 2 pr.pkiType ++ (optBytesW 3 pr.pkiData
      ++ (writeFieldBytes 4 pr.paymentDetails.toRaw ++ (optBytesW 5 pr.signature ++ [])))) :=
    tagOther_optStr 1 2 pr.pkiType _ (by omega) (by omega) (validOB_42 _ hpt)
      (fun _ => tagOther_optBytes 1 3 pr.pkiData _ (by omega) (by omega) (validOB_42 _ hpd)
        (fun _ => tagOther_bytes 1 4 pr.paymentDetails.toRaw _ (by omega) (by omega) hdlen))
  rw [PaymentRequest.fromRaw, pr_toRaw_shape pr, RS_nil]
  rw [readOptU32L 1 pr.version _ _ (by omega) (by omega) hv42 (fun _ => hT1)]
  dsimp only
  rw [readOptStrL 2 pr.pkiType _ _ (by omega) (by omega) (validOB_42 _ hpt)
      (fun _ => hT2)]
  dsimp only
  rw [readOptBytesL 3 pr.pkiData _ _ (by omega) (by omega) (validOB_42 _ hpd)
      (fun _ => hT3)]
  dsimp only
  rw [readFieldBytesF_hit _ pr.paymentDetails.toRaw _ 4 false (by omega) hdlen]
  dsimp only
  rw [pd_roundtrip pr.paymentDetails hdet]
  dsimp only
  rw [readOptBytesL 5 pr.signature _ _ (by omega) (by omega) (validOB_42 _ hsig)
      (fun _ => tagOther_nil 5)]

theorem ack_toRaw_shape (a : PaymentACK) :
    a.toRaw = writeFieldBytes 1 a.payment.toRaw ++ (optStrW 2 a.memo ++ []) := by
  simp [PaymentACK.toRaw]

theorem ack_roundtrip (a : PaymentACK) (h : a.Valid) :
    PaymentACK.fromRaw a.toRaw = .ok a := by
  obtain ⟨hp, hplen, hm⟩ := h
  rw [PaymentACK.fromRaw, ack_toRaw_shape a, RS_nil]
  rw [readFieldBytesF_hit _ a.payment.toRaw _ 1 false (by omega) hplen]
  dsimp only
  rw [p_roundtrip a.payment hp]
  dsimp only
  rw [readOptStrL 2 a.memo _ _ (by omega) (by omega) (validOB_42 _ hm)
      (fun _ => tagOther_nil 2)]

/-! ## Chain round-trip -/

theorem setChain_getChain (pr : PaymentRequest) (certs : List B8)
    (h : ∀ c ∈ certs, ValidB c) : (pr.setChain certs).getChain = .ok certs := by
  have h42 := validList_42 certs h
  have hcnt : certs.length ≤ ((certs.map (fun c => writeFieldBytes 1 c)).flatten).length := by
    have := count_le_flatten (certs.map (fun c => writeFieldBytes 1 c)) (by
      intro x hx
      obtain ⟨c, _, rfl⟩ := List.mem_map.mp hx
      exact writeFieldBytes_len_pos _ _)
    simpa using this
  rw [PaymentRequest.setChain, PaymentRequest.getChain]
  dsimp only
  rw [show (⟨(certs.map (fun c => writeFieldBytes 1 c)).flatten, 0⟩ : RState)
      = RS [] ((certs.map (fun c => writeFieldBytes 1 c)).flatten ++ []) by simp [RS]]
  rw [chainLoop_enc certs [] [] [] _ (by omega) h42 (tagOther_nil 1)]
  simp

/-! ## Varint failure characterizations -/

theorem varintLoop_err (data : B8) : ∀ k : Nat, k ≤ 6 → ∀ off num,
    (varintLoop data off num (6 - k) = .error "Number exceeds 2^53-1." ↔
      (off + k < data.length ∧ ∀ i < k, 128 ≤ data.getD (off + i) 0)) := by
  intro k
  induction k with
  | zero =>
    intro _ off num
    rw [varintLoop]
    dsimp only
    by_cases hoff : data.length ≤ off
    · rw [if_pos hoff]
      constructor
      · intro h; simp at h
      · rintro ⟨h1, _⟩; omega
    · rw [if_neg hoff]
      rw [if_neg (by omega)]
      constructor
      · intro _
        exact ⟨by omega, fun i hi => absurd hi (by omega)⟩
      · intro _; rfl
  | succ k ih =>
    intro hk off num
    rw [varintLoop]
    dsimp only
    by_cases hoff : data.length ≤ off
    · rw [if_pos hoff]
      constructor
      · intro h; simp at h
      · rintro ⟨h1, _⟩; omega
    · rw [if_neg hoff]
      rw [if_pos (by omega)]
      by_cases hch : data.getD off 0 < 128
      · rw [if_pos hch]
        constructor
        · intro h; simp at h
        · rintro ⟨h1, hall⟩
          have h0 : 128 ≤ data.getD off 0 := hall 0 (by omega)
          omega
      · rw [if_neg hch]
        rw [show 6 - (k + 1) + 1 = 6 - k from by omega]
        rw [ih (by omega) (off + 1)]
        constructor
        · rintro ⟨h1, h2⟩
          refine ⟨by omega, ?_⟩
          intro i hi
          rcases i with _ | j
          · show (128 : Nat) ≤ data.getD off 0
            omega
          · have h3 := h2 j (by omega)
            have he : off + 1 + j = off + (j + 1) := by omega
            rwa [he] at h3
        · rintro ⟨h1, hall⟩
          refine ⟨by omega, ?_⟩
          intro i hi
          have h3 := hall (i + 1) (by omega)
          have he : off + (i + 1) = off + 1 + i := by omega
          rwa [he] at h3

theorem readVarint_err_iff (data : B8) (off : Nat) :
    (_readVarint data off = .error "Number exceeds 2^53-1." ↔
      (off + 6 < data.length ∧ ∀ i < 6, 128 ≤ data.getD (off + i) 0)) := by
  have h := varintLoop_err data 6 (le_refl 6) off 0
  simpa [_readVarint] using h

theorem varintLoop_trunc (data : B8) : ∀ k : Nat, ∀ off num size, size + k ≤ 6 →
    off + k = data.length → (∀ i < k, 128 ≤ data.getD (off + i) 0) →
    varintLoop data off num size = .ok (size + k, 0) := by
  intro k
  induction k with
  | zero =>
    intro off num size _ hoff _
    rw [varintLoop, if_pos (by omega)]
    rfl
  | succ k ih =>
    intro off num size hsz hoff hall
    rw [varintLoop]
    dsimp only
    rw [if_neg (by omega)]
    rw [if_pos (by omega)]
    rw [if_neg (by
      have h0 : 128 ≤ data.getD off 0 := hall 0 (by omega)
      omega)]
    rw [ih (off + 1) (num + data.getD off 0 % 128 * 2 ^ (7 * size)) (size + 1)
        (by omega) (by omega)
        (fun i hi => by
          have h3 := hall (i + 1) (by omega)
          have he : off + (i + 1) = off + 1 + i := by omega
          rwa [he] at h3)]
    simp only [Except.ok.injEq, Prod.mk.injEq]
    exact ⟨by omega, trivial⟩

theorem readVarint_trunc (data : B8) (off : Nat) (hle : off ≤ data.length)
    (hk : data.length - off ≤ 6)
    (hall : ∀ i < data.length - off, 128 ≤ data.getD (off + i) 0) :
    _readVarint data off = .ok (data.length - off, 0) := by
  have h := varintLoop_trunc data (data.length - off) off 0 0 (by omega) (by omega) hall
  simpa [_readVarint] using h

/-! ## splitPlus lemmas -/

theorem splitPlus_ne_nil (s : B8) : splitPlus s ≠ [] := by
  induction s with
  | nil => simp [splitPlus]
  | cons c cs ih =>
    rw [splitPlus]
    by_cases hc : c = 43
    · rw [if_pos hc]; simp
    · rw [if_neg hc]
      cases h2 : splitPlus cs with
      | nil => simp
      | cons a l => simp

theorem splitPlus_join (s : B8) : joinP (splitPlus s) = s := by
  induction s with
  | nil => rfl
  | cons c cs ih =>
    rw [splitPlus]
    by_cases hc : c = 43
    · rw [if_pos hc]
      cases h2 : splitPlus cs with
      | nil => exact absurd h2 (splitPlus_ne_nil cs)
      | cons a l =>
        rw [h2] at ih
        rw [show joinP ([] :: a :: l) = [] ++ 43 :: joinP (a :: l) from rfl]
        simp [ih, hc]
    · rw [if_neg hc]
      cases h2 : splitPlus cs with
      | nil => exact absurd h2 (splitPlus_ne_nil cs)
      | cons a l =>
        rw [h2] at ih
        cases l with
        | nil =>
          rw [show joinP ((c :: a) :: []) = c :: a from rfl]
          rw [show joinP (a :: []) = a from rfl] at ih
          simp [ih]
        | cons b t =>
          rw [show joinP ((c :: a) :: b :: t) = (c :: a) ++ 43 :: joinP (b :: t) from rfl]
          rw [show joinP (a :: b :: t) = a ++ 43 :: joinP (b :: t) from rfl] at ih
          simp only [List.cons_append]
          rw [ih]

theorem splitPlus_two (s p0 p1 : B8) (h : splitPlus s = [p0, p1]) :
    s = p0 ++ 43 :: p1 := by
  have hj := splitPlus_join s
  rw [h] at hj
  rw [show joinP [p0, p1] = p0 ++ 43 :: joinP [p1] from rfl] at hj
  rw [show joinP [p1] = p1 from rfl] at hj
  exact hj.symm

/-! ## verify/verifyChain lemmas -/

theorem sigData_snd (pr : PaymentRequest) : pr.signatureData.2 = pr := rfl

theorem verify_false_pki (x : X509) (pr : PaymentRequest)
    (h : strTruthy pr.pkiType = false ∨ pr.pkiType = some noneStr) :
    pr.verify x = .ok false ∧ pr.verifyChain x = .ok false := by
  have hcond : (!strTruthy pr.pkiType) = true ∨ pr.pkiType = some noneStr := by
    rcases h with h | h
    · left; simp [h]
    · right; exact h
  constructor
  · rw [PaymentRequest.verify, if_pos hcond]
  · rw [PaymentRequest.verifyChain, if_pos hcond]

theorem verify_false_sig (x : X509) (pr : PaymentRequest) (h : pr.signature = none) :
    pr.verify x = .ok false := by
  rw [PaymentRequest.verify]
  by_cases hc : (!strTruthy pr.pkiType) = true ∨ pr.pkiType = some noneStr
  · rw [if_pos hc]
  · rw [if_neg hc, if_pos (by simp [h])]

theorem verify_false_alg (x : X509) (pr : PaymentRequest) (e : String)
    (h : pr.getAlgorithm = .error e) : pr.verify x = .ok false := by
  rw [PaymentRequest.verify]
  by_cases hc : (!strTruthy pr.pkiType) = true ∨ pr.pkiType = some noneStr
  · rw [if_pos hc]
  · rw [if_neg hc]
    by_cases hs : pr.signature.isNone
    · rw [if_pos hs]
    · rw [if_neg hs, h]

theorem verify_ok_of_chain (x : X509) (pr : PaymentRequest) (c : List B8)
    (hc : pr.getChain = .ok c) : ∃ b, pr.verify x = .ok b := by
  rw [PaymentRequest.verify]
  by_cases hcond : (!strTruthy pr.pkiType) = true ∨ pr.pkiType = some noneStr
  · exact ⟨false, by rw [if_pos hcond]⟩
  · rw [if_neg hcond]
    by_cases hs : pr.signature.isNone
    · exact ⟨false, by rw [if_pos hs]⟩
    · rw [if_neg hs]
      cases halg : pr.getAlgorithm with
      | error e => exact ⟨false, rfl⟩
      | ok alg =>
        dsimp only
        rw [sigData_snd, hc]
        dsimp only
        cases hvs : x.verifySubject alg.hash pr.signatureData.1 pr.signature c with
        | ok b => exact ⟨b, rfl⟩
        | error e => exact ⟨false, rfl⟩

theorem verify_false_oracle (x : X509) (pr : PaymentRequest) (c : List B8)
    (hc : pr.getChain = .ok c)
    (hx : ∀ hh mm ss cc, ∃ e, x.verifySubject hh mm ss cc = .error e) :
    pr.verify x = .ok false := by
  rw [PaymentRequest.verify]
  by_cases hcond : (!strTruthy pr.pkiType) = true ∨ pr.pkiType = some noneStr
  · rw [if_pos hcond]
  · rw [if_neg hcond]
    by_cases hs : pr.signature.isNone
    · rw [if_pos hs]
    · rw [if_neg hs]
      cases halg : pr.getAlgorithm with
      | error e => rfl
      | ok alg =>
        dsimp only
        rw [sigData_snd, hc]
        dsimp only
        obtain ⟨e, he⟩ := hx alg.hash pr.signatureData.1 pr.signature c
        rw [he]

theorem verifyChain_total (x : X509) (pr : PaymentRequest) :
    ∃ b, pr.verifyChain x = .ok b := by
  rw [PaymentRequest.verifyChain]
  by_cases hcond : (!strTruthy pr.pkiType) = true ∨ pr.pkiType = some noneStr
  · exact ⟨false, by rw [if_pos hcond]⟩
  · rw [if_neg hcond]
    cases hg : pr.getChain with
    | error e => exact ⟨false, rfl⟩
    | ok ch =>
      dsimp only
      cases hv : x.verifyChain ch with
      | ok b => exact ⟨b, rfl⟩
      | error e => exact ⟨false, rfl⟩

/-- C7: `getAlgorithm` succeeds exactly on the pkiType strings
"x509+sha1" and "x509+sha256", returning the corresponding scheme/digest
pair; every other input (absent, empty, not two '+'-parts, unknown scheme,
unknown digest) is a hard error, never a default. -/
theorem c7_thm : ∀ (pr : PaymentRequest) (a : Algorithm),
    pr.getAlgorithm = .ok a ↔
      ((pr.pkiType = some x509sha1 ∧ a = ⟨x509Str, sha1Str⟩) ∨
       (pr.pkiType = some x509sha256 ∧ a = ⟨x509Str, sha256Str⟩)) := by
  intro pr a
  cases hpk : pr.pkiType with
  | none =>
    constructor
    · intro h
      rw [PaymentRequest.getAlgorithm, hpk] at h
      simp [strTruthy] at h
    · rintro (⟨h1, _⟩ | ⟨h1, _⟩) <;> simp at h1
  | some s =>
    rw [PaymentRequest.getAlgorithm, hpk]
    by_cases hse : s = []
    · subst hse
      constructor
      · intro h
        simp [strTruthy] at h
      · rintro (⟨h1, _⟩ | ⟨h1, _⟩) <;> simp [x509sha1, x509sha256] at h1
    · rw [if_neg (by simp [strTruthy, hse])]
      simp only [Option.getD_some]
      constructor
      · intro h
        cases hsp : splitPlus s with
        | nil => exact absurd hsp (splitPlus_ne_nil s)
        | cons p0 r =>
          cases r with
          | nil => rw [hsp] at h; simp at h
          | cons p1 r2 =>
            cases r2 with
            | cons q t => rw [hsp] at h; simp at h
            | nil =>
              rw [hsp] at h
              dsimp only at h
              have hs2 := splitPlus_two s p0 p1 hsp
              by_cases h0 : p0 = x509Str
              · rw [if_neg (by simp [h0])] at h
                by_cases hd : p1 ≠ sha1Str ∧ p1 ≠ sha256Str
                · rw [if_pos hd] at h
                  simp at h
                · rw [if_neg hd] at h
                  simp only [Except.ok.injEq] at h
                  rcases Decidable.not_and_iff_or_not.mp hd with h1 | h2
                  · left
                    have hp1 : p1 = sha1Str := Decidable.not_not.mp h1
                    constructor
                    · rw [hs2, h0, hp1]
                      rfl
                    · rw [← h, h0, hp1]
                  · right
                    have hp1 : p1 = sha256Str := Decidable.not_not.mp h2
                    constructor
                    · rw [hs2, h0, hp1]
                      rfl
                    · rw [← h, h0, hp1]
              · rw [if_pos h0] at h
                simp at h
      · rintro (⟨h1, h2⟩ | ⟨h1, h2⟩) <;>
          (injection h1 with h1
           subst h1
           subst h2
           rfl)

/-! ## Claim theorems -/

/-- C1: `signatureData()` returns exactly the `toRaw` serialization with the
signature forced to a present-but-empty field; the object is left unchanged
(signature and every other field restored); and the returned bytes do not
depend on the prior signature value (never-set and set-then-cleared agree). -/
theorem c1_thm : ∀ pr : PaymentRequest,
    pr.signatureData.1 = PaymentRequest.toRaw { pr with signature := some [] } ∧
    pr.signatureData.2 = pr ∧
    ∀ s : Option B8,
      (PaymentRequest.signatureData { pr with signature := s }).1
        = (PaymentRequest.signatureData { pr with signature := none }).1 :=
  fun _ => ⟨rfl, rfl, fun _ => rfl⟩

/-- C8: when `readField` is called with an expected tag differing from the
tag decoded from the next field header, the cursor is restored exactly to
the pre-read position and the call returns absent when optional, else the
required-field error. -/
theorem c8_thm : ∀ (st st1 : RState) (header t : Nat) (opt : Bool),
    readVarintR st = .ok (header, st1) → header % 2 ^ 32 / 8 ≠ t →
    readFieldF (some t) opt st
      = if opt then .ok (none, st) else .error "Non-optional field not present." :=
  fun st st1 header t opt h1 h2 => readFieldF_mismatch st st1 header t opt h1 h2

theorem c8_witness :
    readFieldF (some 2) true ⟨[8, 0], 0⟩ = .ok (none, ⟨[8, 0], 0⟩) ∧
    readFieldF (some 2) false ⟨[8, 0], 0⟩ = .error "Non-optional field not present." := by
  have hread : readVarintR ⟨[8, 0], 0⟩ = .ok (8, ⟨[8, 0], 1⟩) := by
    simp [readVarintR, _readVarint, varintLoop]
  have hne : (8 : Nat) % 2 ^ 32 / 8 ≠ 2 := by norm_num
  constructor
  · simpa using c8_thm ⟨[8, 0], 0⟩ ⟨[8, 0], 1⟩ 8 2 true hread hne
  · simpa using c8_thm ⟨[8, 0], 0⟩ ⟨[8, 0], 1⟩ 8 2 false hread hne

/-- C9: `isExpired()` is false at the `-1` sentinel and otherwise true
exactly when the clock strictly exceeds `expires`. -/
theorem c9_thm : ∀ (pd : PaymentDetails) (now : Nat),
    pd.isExpired now = true ↔ (pd.expires ≠ -1 ∧ pd.expires < (now : Int)) := by
  intro pd now
  unfold PaymentDetails.isExpired
  by_cases h : pd.expires = -1
  · simp [h]
  · simp [h]

/-- C10: `getData('json')` on PaymentDetails and Payment never raises:
`null` merchant data gives `null`, a parse failure is swallowed to `null`,
and the parsed value is returned exactly when parsing succeeds. -/
theorem c10_thm : ∀ (α : Type) (parse : B8 → Except String α)
    (pd : PaymentDetails) (p : Payment),
    (pd.merchantData = none → pd.getDataJson parse = none) ∧
    (∀ bs e, pd.merchantData = some bs → parse bs = .error e →
      pd.getDataJson parse = none) ∧
    (∀ bs v, pd.merchantData = some bs → parse bs = .ok v →
      pd.getDataJson parse = some v) ∧
    (p.merchantData = none → p.getDataJson parse = none) ∧
    (∀ bs e, p.merchantData = some bs → parse bs = .error e →
      p.getDataJson parse = none) ∧
    (∀ bs v, p.merchantData = some bs → parse bs = .ok v →
      p.getDataJson parse = some v) := by
  intro α parse pd p
  refine ⟨?_, ?_, ?_, ?_, ?_, ?_⟩
  · intro h; simp [PaymentDetails.getDataJson, jsonDataOf, h]
  · intro bs e h1 h2; simp [PaymentDetails.getDataJson, jsonDataOf, h1, h2]
  · intro bs v h1 h2; simp [PaymentDetails.getDataJson, jsonDataOf, h1, h2]
  · intro h; simp [Payment.getDataJson, jsonDataOf, h]
  · intro bs e h1 h2; simp [Payment.getDataJson, jsonDataOf, h1, h2]
  · intro bs v h1 h2; simp [Payment.getDataJson, jsonDataOf, h1, h2]

theorem c10_witness :
    PaymentDetails.getDataJson (fun _ => (.error "bad json" : Except String Nat))
      ⟨none, [], 0, -1, none, none, some [123]⟩ = none ∧
    PaymentDetails.getDataJson (fun _ => (.ok 7 : Except String Nat))
      ⟨none, [], 0, -1, none, none, some [123]⟩ = some 7 ∧
    Payment.getDataJson (fun _ => (.error "bad json" : Except String Nat))
      ⟨none, [], [], none⟩ = none := by
  refine ⟨?_, ?_, ?_⟩
  · exact (c10_thm Nat (fun _ => .error "bad json")
      ⟨none, [], 0, -1, none, none, some [123]⟩ ⟨none, [], [], none⟩).2.1
      [123] "bad json" rfl rfl
  · exact (c10_thm Nat (fun _ => .ok 7)
      ⟨none, [], 0, -1, none, none, some [123]⟩ ⟨none, [], [], none⟩).2.2.1
      [123] 7 rfl rfl
  · exact (c10_thm Nat (fun _ => .error "bad json")
      ⟨none, [], 0, -1, none, none, some [123]⟩ ⟨none, [], [], none⟩).2.2.2.1 rfl

/-- C4 counterexample: the well-formed 7-group varint encoding of `2 ^ 42`
(value well inside the safe-integer range, far fewer than 9 groups) is
rejected by `_readVarint` with the range error. -/
theorem c4_counterexample :
    _readVarint [128, 128, 128, 128, 128, 128, 1] 0 = .error "Number exceeds 2^53-1." := by
  simp [_readVarint, varintLoop]

/-- C4 (amended): `readVarint` succeeds on every well-formed varint of up
to 6 base-128 groups (returning its value), and raises the hard range
error exactly when the six bytes at the cursor all carry the continuation
bit and a seventh byte is available. -/
theorem c4_thm :
    (∀ (pre post bs : B8), WFvarint bs → bs.length ≤ 6 →
      _readVarint (pre ++ (bs ++ post)) pre.length = .ok (bs.length, varintValueAux bs 0)) ∧
    (∀ (data : B8) (off : Nat),
      (_readVarint data off = .error "Number exceeds 2^53-1." ↔
        (off + 6 < data.length ∧ ∀ i < 6, 128 ≤ data.getD (off + i) 0))) :=
  ⟨fun pre post bs hwf hsz => _readVarint_wf pre post bs hwf hsz,
   fun data off => readVarint_err_iff data off⟩

theorem c4_witness :
    _readVarint ([] ++ ([172, 2] ++ [])) 0 = .ok (2, 300) ∧
    _readVarint [128, 129, 130, 131, 132, 133, 7] 0 = .error "Number exceeds 2^53-1." := by
  constructor
  · have h := c4_thm.1 [] [] [172, 2]
      (by
        show 128 ≤ 172 ∧ (2 : Nat) < 128
        norm_num)
      (by norm_num)
    simpa [varintValueAux] using h
  · exact (c4_thm.2 [128, 129, 130, 131, 132, 133, 7] 0).mpr
      ⟨by norm_num, by decide⟩

/-- C5 counterexample: a buffer that ends in the middle of a varint (a
lone continuation byte) does not produce a decode failure — `_readVarint`
silently returns the value 0. -/
theorem c5_counterexample : _readVarint [128] 0 = .ok (1, 0) := by
  simp [_readVarint, varintLoop]

/-- C5 (amended): on a buffer that ends in the middle of a varint (every
remaining byte carries the continuation bit, with at most six of them —
including none, i.e. a varint starting at or past the end), `_readVarint`
does not fail: it synthesizes the value 0, consuming the remaining bytes.
Truncation is only reported as an error indirectly, via the 7-group cap,
when seven continuation bytes are present. -/
theorem c5_thm : ∀ (data : B8) (off : Nat), off ≤ data.length →
    data.length - off ≤ 6 →
    (∀ i < data.length - off, 128 ≤ data.getD (off + i) 0) →
    _readVarint data off = .ok (data.length - off, 0) :=
  fun data off h1 h2 h3 => readVarint_trunc data off h1 h2 h3

theorem c5_witness :
    _readVarint [144, 200] 0 = .ok (2, 0) ∧ _readVarint [7] 1 = .ok (0, 0) := by
  constructor
  · exact (by decide : ([144, 200] : B8).length - 0 = 2) ▸
      c5_thm [144, 200] 0 (by norm_num) (by norm_num) (by decide)
  · exact (by decide : ([7] : B8).length - 1 = 0) ▸
      c5_thm [7] 1 (by norm_num) (by norm_num) (by decide)

/-- C6: `getChain` after `setChain(certs)` returns exactly `certs` in
order, and `getChain` is empty whenever `pkiData` is absent. -/
theorem c6_thm :
    (∀ (pr : PaymentRequest) (certs : List B8), (∀ c ∈ certs, ValidB c) →
      (pr.setChain certs).getChain = .ok certs) ∧
    (∀ pr : PaymentRequest, pr.pkiData = none → pr.getChain = .ok []) :=
  ⟨fun pr certs h => setChain_getChain pr certs h,
   fun pr h => by rw [PaymentRequest.getChain, h]⟩

theorem c6_witness :
    (PaymentRequest.getChain
      (PaymentRequest.setChain
        ⟨-1, none, none, ⟨none, [], 0, -1, none, none, none⟩, none⟩
        [[1, 2], [], [3]])) = .ok [[1, 2], [], [3]] ∧
    (PaymentRequest.getChain
      ⟨-1, none, none, ⟨none, [], 0, -1, none, none, none⟩, none⟩) = .ok [] := by
  constructor
  · exact c6_thm.1 ⟨-1, none, none, ⟨none, [], 0, -1, none, none, none⟩, none⟩
      [[1, 2], [], [3]]
      (by
        intro c hc
        simp at hc
        rcases hc with rfl | rfl | rfl <;> norm_num [ValidB])
  · exact c6_thm.2 ⟨-1, none, none, ⟨none, [], 0, -1, none, none, none⟩, none⟩ rfl

/-- C3 counterexample: a valid PaymentDetails whose `time` is `2 ^ 42`
(a safe integer accepted by the constructor and within the spec's u64
range) does not round-trip: decoding its own encoding fails with the
varint range error instead of returning the value. -/
theorem c3_counterexample :
    PaymentDetails.fromRaw
      (PaymentDetails.toRaw ⟨none, [], 4398046511104, -1, none, none, none⟩)
      = .error "Number exceeds 2^53-1." := by
  have h1 : PaymentDetails.toRaw ⟨none, [], 4398046511104, -1, none, none, none⟩
      = [24, 128, 128, 128, 128, 128, 128, 1] := by
    simp [PaymentDetails.toRaw, optStrW, optU64W, optBytesW, encOutputs, encOutsTagged,
      writeFieldU64, writeHeader, writeVarint]
  rw [h1]
  simp [PaymentDetails.fromRaw, readFieldStringF, readFieldBytesF, readFieldU64F,
    readFieldF, readPayloadF, readVarintR, _readVarint, varintLoop, readOutputsLoop,
    nextTagF, readVarBytesR, readBytesR]

/-- C3 (amended): decode-of-encode is the identity, field by field, with
absent sentinels round-tripping as absent, for every
PaymentDetails/Payment/PaymentRequest/PaymentACK whose numeric fields lie
below the decoder's `2 ^ 42` varint cap and whose byte fields are
representable buffers; outside that range (e.g. `time = 2 ^ 42`) the
decoder rejects the encoder's output. -/
theorem c3_thm :
    (∀ pd : PaymentDetails, pd.Valid → PaymentDetails.fromRaw pd.toRaw = .ok pd) ∧
    (∀ p : Payment, p.Valid → Payment.fromRaw p.toRaw = .ok p) ∧
    (∀ pr : PaymentRequest, pr.Valid → PaymentRequest.fromRaw pr.toRaw = .ok pr) ∧
    (∀ a : PaymentACK, a.Valid → PaymentACK.fromRaw a.toRaw = .ok a) :=
  ⟨fun pd h => pd_roundtrip pd h, fun p h => p_roundtrip p h,
   fun pr h => pr_roundtrip pr h, fun a h => ack_roundtrip a h⟩

theorem c3_witness :
    PaymentDetails.fromRaw
      (PaymentDetails.toRaw
        ⟨some [116], [⟨5, some [1, 2]⟩], 100, 200, some [109], none, some [77]⟩)
      = .ok ⟨some [116], [⟨5, some [1, 2]⟩], 100, 200, some [109], none, some [77]⟩ ∧
    Payment.fromRaw (Payment.toRaw ⟨some [9], [[1], []], [⟨3, some []⟩], some [5]⟩)
      = .ok ⟨some [9], [[1], []], [⟨3, some []⟩], some [5]⟩ ∧
    PaymentRequest.fromRaw
      (PaymentRequest.toRaw
        ⟨1, some [120], some [3], ⟨none, [], 0, -1, none, none, none⟩, some [4]⟩)
      = .ok ⟨1, some [120], some [3], ⟨none, [], 0, -1, none, none, none⟩, some [4]⟩ ∧
    PaymentACK.fromRaw (PaymentACK.toRaw ⟨⟨none, [], [], none⟩, some [6]⟩)
      = .ok ⟨⟨none, [], [], none⟩, some [6]⟩ := by
  have hpdMin : PaymentDetails.Valid ⟨none, [], 0, -1, none, none, none⟩ := by
    refine ⟨?_, ?_, ?_, ?_, ?_, ?_, ?_, ?_⟩
    · intro s hs; simp at hs
    · intro o ho; simp at ho
    · norm_num
    · norm_num
    · exact Or.inl rfl
    · intro s hs; simp at hs
    · intro s hs; simp at hs
    · intro s hs; simp at hs
  have hpdMinRaw : (PaymentDetails.toRaw ⟨none, [], 0, -1, none, none, none⟩) = [24, 0] := by
    simp [PaymentDetails.toRaw, optStrW, optU64W, encOutputs, encOutsTagged,
      writeFieldU64, writeHeader, writeVarint]
  refine ⟨?_, ?_, ?_, ?_⟩
  · refine c3_thm.1 _ ⟨?_, ?_, ?_, ?_, ?_, ?_, ?_, ?_⟩
    · intro s hs; simp at hs; subst hs; norm_num [ValidB]
    · intro o ho
      simp at ho
      subst ho
      exact ⟨by norm_num, by norm_num, [1, 2], rfl, by norm_num [ValidB]⟩
    · norm_num
    · norm_num
    · exact Or.inr ⟨by norm_num, by norm_num⟩
    · intro s hs; simp at hs; subst hs; norm_num [ValidB]
    · intro s hs; simp at hs
    · intro s hs; simp at hs; subst hs; norm_num [ValidB]
  · refine c3_thm.2.1 _ ⟨?_, ?_, ?_, ?_⟩
    · intro s hs; simp at hs; subst hs; norm_num [ValidB]
    · intro tx htx
      simp at htx
      rcases htx with rfl | rfl <;> norm_num [ValidB]
    · intro o ho
      simp at ho
      subst ho
      exact ⟨by norm_num, by norm_num, [], rfl, by norm_num [ValidB]⟩
    · intro s hs; simp at hs; subst hs; norm_num [ValidB]
  · refine c3_thm.2.2.1 _ ⟨?_, ?_, ?_, ?_, ?_, ?_⟩
    · exact Or.inr ⟨by norm_num, by norm_num⟩
    · intro s hs; simp at hs; subst hs; norm_num [ValidB]
    · intro s hs; simp at hs; subst hs; norm_num [ValidB]
    · exact hpdMin
    · rw [hpdMinRaw]; norm_num
    · intro s hs; simp at hs; subst hs; norm_num [ValidB]
  · refine c3_thm.2.2.2 _ ⟨⟨?_, ?_, ?_, ?_⟩, ?_, ?_⟩
    · intro s hs; simp at hs
    · intro tx htx; simp at htx
    · intro o ho; simp at ho
    · intro s hs; simp at hs
    · simp [Payment.toRaw, optBytesW, optStrW, encTxs, encOutsTagged, encRefunds]
    · intro s hs; simp at hs; subst hs; norm_num [ValidB]

/-- C2 counterexample: `verify()` can raise. With pkiType "x509+sha256", a
signature present, and attacker-controlled `pkiData` `[0x0a, 0x05]` (a
tag-1 delimited field announcing 5 bytes that are not there), the
`getChain()` call inside `verify` — which sits outside the try block —
throws an out-of-bounds decode error instead of returning false, for any
external verifier. -/
theorem c2_counterexample :
    PaymentRequest.verify okX509
      ⟨-1, some x509sha256, some [10, 5], ⟨none, [], 0, -1, none, none, none⟩, some [1]⟩
      = .error "Out of bounds read." := by
  have hch : PaymentRequest.getChain
      ⟨-1, some x509sha256, some [10, 5], ⟨none, [], 0, -1, none, none, none⟩, some [1]⟩
      = .error "Out of bounds read." := by
    simp [PaymentRequest.getChain, chainLoop, nextTagF, readFieldF, readPayloadF,
      readVarintR, _readVarint, varintLoop, readVarBytesR, readBytesR, readFieldBytesF]
  have halg : PaymentRequest.getAlgorithm
      ⟨-1, some x509sha256, some [10, 5], ⟨none, [], 0, -1, none, none, none⟩, some [1]⟩
      = .ok ⟨x509Str, sha256Str⟩ := rfl
  rw [PaymentRequest.verify]
  rw [if_neg (by simp [strTruthy, x509sha256, noneStr])]
  rw [if_neg (by simp)]
  rw [halg]
  dsimp only
  rw [sigData_snd, hch]

/-- C2 (amended): `verify()` returns false without raising when `pkiType`
is absent, empty, or the literal "none", when the signature is absent,
when algorithm resolution fails, and — provided the chain decodes — when
the external verifier throws; given a decodable chain it always returns a
boolean.  `verifyChain()` always returns a boolean.  However, `verify()`
propagates a decode error instead of returning false when `pkiData` is
malformed (see the counterexample): its `getChain()` call is outside the
try block, unlike `verifyChain()`'s. -/
theorem c2_thm : ∀ (x : X509) (pr : PaymentRequest),
    ((strTruthy pr.pkiType = false ∨ pr.pkiType = some noneStr) →
      pr.verify x = .ok false ∧ pr.verifyChain x = .ok false) ∧
    (pr.signature = none → pr.verify x = .ok false) ∧
    (∀ e, pr.getAlgorithm = .error e → pr.verify x = .ok false) ∧
    (∀ c, pr.getChain = .ok c → ∃ b, pr.verify x = .ok b) ∧
    (∀ c, pr.getChain = .ok c →
      (∀ hh mm ss cc, ∃ e, x.verifySubject hh mm ss cc = .error e) →
      pr.verify x = .ok false) ∧
    (∃ b, pr.verifyChain x = .ok b) :=
  fun x pr =>
    ⟨verify_false_pki x pr, verify_false_sig x pr,
     fun e he => verify_false_alg x pr e he,
     fun c hc => verify_ok_of_chain x pr c hc,
     fun c hc hx => verify_false_oracle x pr c hc hx,
     verifyChain_total x pr⟩

theorem c2_witness :
    PaymentRequest.verify okX509
      ⟨-1, none, none, ⟨none, [], 0, -1, none, none, none⟩, none⟩ = .ok false ∧
    PaymentRequest.verifyChain okX509
      ⟨-1, some noneStr, none, ⟨none, [], 0, -1, none, none, none⟩, some [1]⟩
      = .ok false ∧
    PaymentRequest.verify okX509
      ⟨-1, some x509sha256, none, ⟨none, [], 0, -1, none, none, none⟩, none⟩
      = .ok false := by
  refine ⟨?_, ?_, ?_⟩
  · exact ((c2_thm okX509
      ⟨-1, none, none, ⟨none, [], 0, -1, none, none, none⟩, none⟩).1 (Or.inl rfl)).1
  · exact ((c2_thm okX509
      ⟨-1, some noneStr, none, ⟨none, [], 0, -1, none, none, none⟩, some [1]⟩).1
      (Or.inr rfl)).2
  · exact (c2_thm okX509
      ⟨-1, some x509sha256, none, ⟨none, [], 0, -1, none, none, none⟩, none⟩).2.1 rfl
